import Mathlib

/-!
# core-js-101, `src/05-objects-tasks.js`: `Rectangle` and the `cssSelectorBuilder` object

`Rectangle` is a record of its two fields over a type of numbers; JavaScript numbers
are modelled on the integers by `JSNumber`, whose product rounds as IEEE-754 doubles do.

A shallow embedding of the CSS selector builder.  A JavaScript object is a record of
its data fields (`Sel`); a method is a function from the receiver (and the arguments)
to the receiver after the call together with what the call hands back: an error
(`throw new Error(...)`), the receiver itself (`return this`), or a newly allocated
object (`return newObj`).  Object identity lives in a heap of cells addressed by
references; the facade `cssSelectorBuilder` is the cell at reference `0`.
-/

/-- The object built by `new Rectangle(width, height)` (lines 22-27): the constructor
assigns its two arguments to the fields `width` and `height`.  Numbers are taken from any
type with a multiplication. -/
structure Rectangle (α : Type) where
  width : α
  height : α
  deriving DecidableEq, Repr

/-- The method `getArea` (line 26), the arrow function `() => this.width * this.height`. -/
def Rectangle.getArea {α : Type} [Mul α] (this : Rectangle α) : α :=
  this.width * this.height

/-- A JavaScript number, restricted to the values a product of integers can take: an
IEEE-754 double whose value is the integer `n` (the two zeros are not told apart), an
infinity, or NaN.  Every integer of magnitude at most `2 ^ 53` is the value of a double. -/
inductive JSNumber where
  | int (n : Int)
  | infinity (negative : Bool)
  | nan
  deriving DecidableEq, Repr

/-- The number of low bits of `m` that do not fit in the 53-bit significand of a double:
the least `e` with `m / 2 ^ e < 2 ^ 53`, found in at most `fuel` halvings. -/
def excessBits : Nat → Nat → Nat
  | 0, _ => 0
  | fuel + 1, m => if m < 2 ^ 53 then 0 else excessBits fuel (m / 2) + 1

/-- The magnitude `m` rounded to 53 significant bits, to nearest and ties to even (the
rounding of IEEE-754 binary64, before the range check): the bits cut off round the
significand up when they are more than half a unit, or exactly half with the significand
odd. -/
def roundMagnitude (m : Nat) : Nat :=
  let e := excessBits m m
  let q := m / 2 ^ e
  let rem := m % 2 ^ e
  (if 2 ^ e < 2 * rem ∨ (2 * rem = 2 ^ e ∧ q % 2 = 1) then q + 1 else q) * 2 ^ e

/-- The double nearest to the integer `p`: its magnitude is rounded to 53 significant
bits, and a rounded magnitude of `2 ^ 1024` or more is an infinity. -/
def roundToDouble (p : Int) : JSNumber :=
  let r := roundMagnitude p.natAbs
  if r >>> 1024 ≠ 0 then .infinity (decide (p < 0))
  else .int (if p < 0 then -(r : Int) else (r : Int))

/-- The operator `*` of JavaScript on these numbers: the exact product of two integers,
rounded to the nearest double; the products with an infinity or NaN as IEEE-754 has
them. -/
def JSNumber.mul : JSNumber → JSNumber → JSNumber
  | .int a, .int b => roundToDouble (a * b)
  | .int a, .infinity s => if a = 0 then .nan else .infinity (s != decide (a < 0))
  | .infinity s, .int b => if b = 0 then .nan else .infinity (s != decide (b < 0))
  | .infinity s, .infinity t => .infinity (s != t)
  | .nan, _ => .nan
  | _, .nan => .nan

instance : Mul JSNumber := ⟨JSNumber.mul⟩

namespace CssSelector

/-- The two `Error`s the builder throws, told apart by their message. -/
inductive Err where
  /-- Thrown with 'Element, id and pseudo-element should not occur more then one time
  inside the selector'. -/
  | duplicate
  /-- Thrown with 'Selector parts should be arranged in the following order: element, id,
  class, attribute, pseudo-class, pseudo-element'. -/
  | order
  deriving DecidableEq, Repr

/-- The message carried by each error. -/
def Err.message : Err → String
  | .duplicate =>
    "Element, id and pseudo-element should not occur more then one time inside the selector"
  | .order =>
    "Selector parts should be arranged in the following order: element, id, class, attribute, pseudo-class, pseudo-element"

/-- The data fields of a builder object (lines 115-121).  The source spells the last
field with a Cyrillic capital Es; it holds only the integer literals `0`..`6`. -/
structure Sel where
  css : String
  ctrl : Bool
  elem : Bool
  ident : Bool
  pseudoEl : Bool
  canCreatePseudo : Bool
  sequenceControl : Nat
  deriving DecidableEq, Repr

/-- The object literal `cssSelectorBuilder` as written in the source (lines 114-121). -/
def cssSelectorBuilder : Sel :=
  { css := "", ctrl := false, elem := false, ident := false, pseudoEl := false,
    canCreatePseudo := false, sequenceControl := 0 }

/-- What a successful method call returns: `this`, or a newly created object. -/
inductive Ret where
  /-- The statement `return this`. -/
  | self
  /-- The statement `return newObj`, with the fields of the new object. -/
  | created (newObj : Sel)
  deriving DecidableEq, Repr

/-- The outcome of a call: an error thrown, or a returned value. -/
inductive Outcome (α : Type) where
  /-- The call threw. -/
  | throw (e : Err)
  /-- The call returned. -/
  | ok (a : α)
  deriving DecidableEq, Repr

/-- Method `returner` (lines 122-136): the receiver after the call, and the value returned. -/
def returner (this : Sel) (value : String) : Sel × Ret :=
  if this.ctrl then
    ({ this with css := this.css ++ value }, Ret.self)
  else
    let newObj : Sel := { this with css := this.css ++ value, ctrl := true }
    ({ this with elem := false, ident := false, pseudoEl := false,
                 canCreatePseudo := false, sequenceControl := 0 },
     Ret.created newObj)

/-- Method `stringify` (lines 217-219). -/
def stringify (this : Sel) : String := this.css

/-- Method `element` (lines 137-149). -/
def element (this : Sel) (value : String) : Sel × Outcome Ret :=
  if this.elem then (this, .throw .duplicate)
  else if this.sequenceControl ≠ 0 then (this, .throw .order)
  else
    let this1 : Sel := { this with sequenceControl := 1, elem := true, canCreatePseudo := true }
    ((returner this1 value).1, .ok (returner this1 value).2)

/-- Method `id` (lines 151-164). -/
def id (this : Sel) (value : String) : Sel × Outcome Ret :=
  if this.ident then (this, .throw .duplicate)
  else if this.sequenceControl > 1 then (this, .throw .order)
  else
    let this1 : Sel := { this with sequenceControl := 2, ident := true, canCreatePseudo := true }
    let val := "#" ++ value
    ((returner this1 val).1, .ok (returner this1 val).2)

/-- Method `class` (lines 166-175). -/
def «class» (this : Sel) (value : String) : Sel × Outcome Ret :=
  if this.sequenceControl > 3 then (this, .throw .order)
  else
    let this1 : Sel := { this with sequenceControl := 3, canCreatePseudo := true }
    let val := "." ++ value
    ((returner this1 val).1, .ok (returner this1 val).2)

/-- Method `attr` (lines 177-186). -/
def attr (this : Sel) (value : String) : Sel × Outcome Ret :=
  if this.sequenceControl > 4 then (this, .throw .order)
  else
    let this1 : Sel := { this with sequenceControl := 4, canCreatePseudo := true }
    let val := "[" ++ value ++ "]"
    ((returner this1 val).1, .ok (returner this1 val).2)

/-- Method `pseudoClass` (lines 188-196). -/
def pseudoClass (this : Sel) (value : String) : Sel × Outcome Ret :=
  if this.sequenceControl > 5 then (this, .throw .order)
  else
    let this1 : Sel := { this with sequenceControl := 5 }
    let val := ":" ++ value
    ((returner this1 val).1, .ok (returner this1 val).2)

/-- Method `pseudoElement` (lines 198-210). -/
def pseudoElement (this : Sel) (value : String) : Sel × Outcome Ret :=
  if this.pseudoEl then (this, .throw .duplicate)
  else if this.sequenceControl > 6 then (this, .throw .order)
  else
    let this1 : Sel := { this with sequenceControl := 6, pseudoEl := true }
    let val := "::" ++ value
    ((returner this1 val).1, .ok (returner this1 val).2)

/-- Method `combine` (lines 212-216); the two operands are only read, through `stringify`. -/
def combine (this : Sel) (selector1 : Sel) (combinator : String) (selector2 : Sel) :
    Sel × Ret :=
  let value := stringify selector1 ++ " " ++ combinator ++ " " ++ stringify selector2
  returner this value

/-- The six kinds of fragment, one per fragment method of the builder. -/
inductive Kind where
  | element | id | «class» | attr | pseudoClass | pseudoElement
  deriving DecidableEq, Repr

/-- A fragment call `kind(value)`. -/
structure Call where
  kind : Kind
  value : String
  deriving DecidableEq, Repr

/-- Dispatch of a fragment call to the method of that name. -/
def Call.apply (c : Call) (this : Sel) : Sel × Outcome Ret :=
  match c.kind with
  | .element => element this c.value
  | .id => id this c.value
  | .«class» => «class» this c.value
  | .attr => attr this c.value
  | .pseudoClass => pseudoClass this c.value
  | .pseudoElement => pseudoElement this c.value

/-- A reference to an object. -/
abbrev Ref := Nat

/-- The heap: the objects allocated so far are the cells at the references below `next`. -/
structure Heap where
  objs : Ref → Sel
  next : Ref

/-- The reference of the shared facade, the module-level constant `cssSelectorBuilder`. -/
def facade : Ref := 0

/-- The heap when the module has just been loaded: the facade, as written in the source,
is the only object. -/
def Heap.init : Heap := { objs := fun _ => cssSelectorBuilder, next := 1 }

/-- Write the effect of a method called on the object at `r` back to the heap: the
receiver takes its new fields, a created object is allocated at `next`, and the caller
receives a reference. -/
def Heap.commit (h : Heap) (r : Ref) (res : Sel × Outcome Ret) : Heap × Outcome Ref :=
  match res with
  | (this1, .throw e) => ({ h with objs := Function.update h.objs r this1 }, .throw e)
  | (this1, .ok .self) => ({ h with objs := Function.update h.objs r this1 }, .ok r)
  | (this1, .ok (.created newObj)) =>
    ({ objs := Function.update (Function.update h.objs r this1) h.next newObj,
       next := h.next + 1 }, .ok h.next)

/-- The fragment call `r.kind(value)` on the object at `r`. -/
def Heap.call (h : Heap) (r : Ref) (c : Call) : Heap × Outcome Ref :=
  h.commit r (c.apply (h.objs r))

/-- The call `r.combine(a, combinator, b)`; `combine` has no `throw`. -/
def Heap.combine (h : Heap) (r a : Ref) (combinator : String) (b : Ref) :
    Heap × Outcome Ref :=
  h.commit r ((CssSelector.combine (h.objs r) (h.objs a) combinator (h.objs b)).1,
              .ok (CssSelector.combine (h.objs r) (h.objs a) combinator (h.objs b)).2)

/-- The call `r.stringify()`, which writes nothing. -/
def Heap.stringify (h : Heap) (r : Ref) : String := CssSelector.stringify (h.objs r)

/-- Method `stringify` as a call: the receiver after the call and the string returned.
The body is the single statement `return this.css`. -/
def stringifyCall (this : Sel) : Sel × String := (this, this.css)

/-- The call `r.stringify()` on the heap: the heap after the call and the string returned. -/
def Heap.callStringify (h : Heap) (r : Ref) : Heap × String :=
  ({ h with objs := Function.update h.objs r (stringifyCall (h.objs r)).1 },
   (stringifyCall (h.objs r)).2)

/-- The heap after `n` calls `r.stringify()` in a row, and the strings they returned. -/
def Heap.stringifyTimes (h : Heap) (r : Ref) : Nat → Heap × List String
  | 0 => (h, [])
  | n + 1 =>
    (((h.callStringify r).1.stringifyTimes r n).1,
     (h.callStringify r).2 :: ((h.callStringify r).1.stringifyTimes r n).2)

/-- The chain `r.k1(v1).k2(v2)...`: every call is made on what the call before it
returned, and the chain ends at the first call that throws.  The number is the count of
calls that returned, which is the index of the throwing call when there is one. -/
def Heap.chain (h : Heap) (r : Ref) : List Call → Heap × Nat × Outcome Ref
  | [] => (h, 0, .ok r)
  | c :: cs =>
    match h.call r c with
    | (h1, .throw e) => (h1, 0, .throw e)
    | (h1, .ok r1) => ((h1.chain r1 cs).1, (h1.chain r1 cs).2.1 + 1, (h1.chain r1 cs).2.2)

/-- Specification side: the canonical rendering of a fragment, `value`, `#value`,
`.value`, `[value]`, `:value`, `::value`. -/
def Call.render (c : Call) : String :=
  match c.kind with
  | .element => c.value
  | .id => "#" ++ c.value
  | .«class» => "." ++ c.value
  | .attr => "[" ++ c.value ++ "]"
  | .pseudoClass => ":" ++ c.value
  | .pseudoElement => "::" ++ c.value

/-- Specification side: the rank of a fragment kind in the order element (1), id (2),
class (3), attribute (4), pseudo-class (5), pseudo-element (6). -/
def Kind.rank : Kind → Nat
  | .element => 1
  | .id => 2
  | .«class» => 3
  | .attr => 4
  | .pseudoClass => 5
  | .pseudoElement => 6

/-- Specification side: the kinds that may occur once only, element, id and
pseudo-element. -/
def Kind.singleton : Kind → Bool
  | .element => true
  | .id => true
  | .pseudoElement => true
  | _ => false

/-- Specification side: the concatenation, in call order and with no separator, of the
renderings. -/
def renderAll : List Call → String
  | [] => ""
  | c :: cs => c.render ++ renderAll cs

/-- The object a fragment call hands back when it returns: the created object if there is
one, the receiver otherwise. -/
def Call.returned (c : Call) (this : Sel) : Sel :=
  match (c.apply this).2 with
  | .ok (.created newObj) => newObj
  | _ => (c.apply this).1

/-- Specification side: a call completes a violation of the ordering rules when an
earlier call has a higher rank, or when it is a second element, id or pseudo-element. -/
def violates (earlier : List Call) (c : Call) : Prop :=
  (∃ d ∈ earlier, c.kind.rank < d.kind.rank) ∨
  (c.kind.singleton = true ∧ ∃ d ∈ earlier, d.kind = c.kind)

/-- Proof invariant: the fields of `s` record the calls `seen`, their highest rank and
which of element, id and pseudo-element are among them. -/
structure Tracks (seen : List Call) (s : Sel) : Prop where
  rank : ∀ n, n < s.sequenceControl ↔ ∃ d ∈ seen, n < d.kind.rank
  elem : s.elem = true ↔ ∃ d ∈ seen, d.kind = .element
  ident : s.ident = true ↔ ∃ d ∈ seen, d.kind = .id
  pseudoEl : s.pseudoEl = true ↔ ∃ d ∈ seen, d.kind = .pseudoElement

/-- The singleton flag that the method of the given kind tests first; the methods `class`,
`attr` and `pseudoClass` test none. -/
def Kind.flag (k : Kind) (this : Sel) : Bool :=
  match k with
  | .element => this.elem
  | .id => this.ident
  | .pseudoElement => this.pseudoEl
  | _ => false

/-- An operation a client program performs on the objects it holds: a fragment call, a
`combine` call or a `stringify` call on the object at `r`. -/
inductive Op where
  | call (r : Ref) (c : Call)
  | combine (r a : Ref) (combinator : String) (b : Ref)
  | stringify (r : Ref)
  deriving DecidableEq, Repr

/-- The heap after an operation, whether it returned or threw (a caller may catch the
error and go on).  A program holds references to allocated objects only. -/
def Heap.step (h : Heap) : Op → Heap
  | .call r c => if r < h.next then (h.call r c).1 else h
  | .combine r a combinator b =>
    if r < h.next ∧ a < h.next ∧ b < h.next then (h.combine r a combinator b).1 else h
  | .stringify r => if r < h.next then (h.callStringify r).1 else h

/-- The heap after a program, a sequence of operations, has run. -/
def Heap.run (h : Heap) (ops : List Op) : Heap := ops.foldl Heap.step h

/-- A construction: an expression a client writes starting from the facade, such as
`builder.element('a').id('b')` or `builder.combine(builder.element('a'), '+', ...)`. -/
inductive Build where
  /-- The expression `cssSelectorBuilder`. -/
  | facade
  /-- The expression `recv.kind(value)`. -/
  | call (recv : Build) (c : Call)
  /-- The expression `recv.combine(a, combinator, b)`. -/
  | combine (recv a : Build) (combinator : String) (b : Build)
  deriving DecidableEq, Repr

/-- Evaluation of a construction: receiver first, then the arguments from left to right,
then the call; an error thrown by a part ends the evaluation. -/
def Heap.build (h : Heap) : Build → Heap × Outcome Ref
  | .facade => (h, .ok CssSelector.facade)
  | .call recv c =>
    match h.build recv with
    | (h1, .throw e) => (h1, .throw e)
    | (h1, .ok r) => h1.call r c
  | .combine recv a combinator b =>
    match h.build recv with
    | (h1, .throw e) => (h1, .throw e)
    | (h1, .ok r) =>
      match h1.build a with
      | (h2, .throw e) => (h2, .throw e)
      | (h2, .ok ra) =>
        match h2.build b with
        | (h3, .throw e) => (h3, .throw e)
        | (h3, .ok rb) => h3.combine r ra combinator rb

/-- What a caller sees of an evaluation: the error, or the fields of the selector it was
handed. -/
def observe (res : Heap × Outcome Ref) : Outcome Sel :=
  match res.2 with
  | .throw e => .throw e
  | .ok r => .ok (res.1.objs r)

/-- The facade has the fields of the source's object literal, and it is allocated. -/
def Heap.Fresh (h : Heap) : Prop := h.objs facade = cssSelectorBuilder ∧ 0 < h.next

/-- Proof invariant of a single object: the rank is at most 6, and it is 6 when the
pseudo-element flag is set. -/
def Sel.Good (s : Sel) : Prop :=
  s.sequenceControl ≤ 6 ∧ (s.pseudoEl = true → s.sequenceControl = 6)

/-- Proof invariant of the heap: the facade is fresh, every other allocated object is an
in-progress selector (`ctrl` set), and every object is `Good`. -/
def Heap.Inv (h : Heap) : Prop :=
  h.Fresh ∧ (∀ r, r ≠ facade → r < h.next → (h.objs r).ctrl = true) ∧
  ∀ r, (h.objs r).Good

/-- Two builder states that are equal in every field other than `ctrl` and
`canCreatePseudo`. -/
def Sel.agree (s t : Sel) : Prop :=
  s.css = t.css ∧ s.elem = t.elem ∧ s.ident = t.ident ∧ s.pseudoEl = t.pseudoEl ∧
  s.sequenceControl = t.sequenceControl

/-- The object a method hands back: the created object if there is one, the receiver as
the method left it otherwise. -/
def Ret.object (ret : Ret) (this1 : Sel) : Sel :=
  match ret with
  | .self => this1
  | .created newObj => newObj

/-! ## Properties of the methods -/

/-- A call that throws leaves the fields of the receiver as they were. -/
theorem apply_throw_state (c : Call) (s : Sel) (e : Err) (h : (c.apply s).2 = .throw e) :
    (c.apply s).1 = s := by
  rcases c with ⟨k, v⟩
  cases k <;> simp only [Call.apply, element, id, «class», attr, pseudoClass, pseudoElement] at h ⊢ <;>
    split_ifs at h ⊢ <;> simp_all

/-- The fields of the selector handed back by a fragment call that returns. -/
theorem returned_fields (c : Call) (s : Sel) (ret : Ret) (h : (c.apply s).2 = .ok ret) :
    (c.returned s).css = s.css ++ c.render ∧ (c.returned s).ctrl = true ∧
    (c.returned s).sequenceControl = c.kind.rank ∧
    (c.returned s).elem = (s.elem || decide (c.kind = .element)) ∧
    (c.returned s).ident = (s.ident || decide (c.kind = .id)) ∧
    (c.returned s).pseudoEl = (s.pseudoEl || decide (c.kind = .pseudoElement)) := by
  rcases c with ⟨k, v⟩
  cases k <;> simp only [Call.returned, Call.apply, element, id, «class», attr, pseudoClass, pseudoElement, returner] at h ⊢ <;>
    split_ifs at h ⊢ <;> simp_all [Call.render, Kind.rank]

/-- The guard of each fragment method: when the call throws. -/
theorem throws_iff (c : Call) (s : Sel) :
    (∃ e, (c.apply s).2 = .throw e) ↔
      match c.kind with
      | .element => s.elem = true ∨ s.sequenceControl ≠ 0
      | .id => s.ident = true ∨ 1 < s.sequenceControl
      | .«class» => 3 < s.sequenceControl
      | .attr => 4 < s.sequenceControl
      | .pseudoClass => 5 < s.sequenceControl
      | .pseudoElement => s.pseudoEl = true ∨ 6 < s.sequenceControl := by
  rcases c with ⟨k, v⟩
  cases k <;> simp only [Call.apply, element, id, «class», attr, pseudoClass, pseudoElement] <;>
    split_ifs <;> simp_all

/-- A fragment call returns or throws. -/
theorem ok_or_throw (c : Call) (s : Sel) :
    (∃ ret, (c.apply s).2 = .ok ret) ∨ (∃ e, (c.apply s).2 = .throw e) := by
  cases h : (c.apply s).2 with
  | throw e => exact Or.inr ⟨e, rfl⟩
  | ok a => exact Or.inl ⟨a, rfl⟩

/-- The rank of each kind. -/
theorem rank_cases (k : Kind) :
    (k = .element ∧ k.rank = 1) ∨ (k = .id ∧ k.rank = 2) ∨ (k = .«class» ∧ k.rank = 3) ∨
    (k = .attr ∧ k.rank = 4) ∨ (k = .pseudoClass ∧ k.rank = 5) ∨
    (k = .pseudoElement ∧ k.rank = 6) := by
  cases k <;> simp [Kind.rank]

/-- On a selector that records the calls made so far, a call throws exactly when it
completes a violation. -/
theorem throws_iff_violates {seen : List Call} {s : Sel} (ht : Tracks seen s) (c : Call) :
    (∃ e, (c.apply s).2 = .throw e) ↔ violates seen c := by
  rw [throws_iff]
  rcases c with ⟨k, v⟩
  cases k <;> simp only [violates, Kind.singleton, true_and, false_and, or_false,
    Bool.false_eq_true]
  · rw [ht.elem, Nat.ne_zero_iff_zero_lt, ht.rank]
    show _ ↔ (∃ d ∈ seen, 1 < d.kind.rank) ∨ _
    constructor
    · rintro (h | ⟨d, hd, h⟩)
      · exact Or.inr h
      · rcases rank_cases d.kind with hk | hk | hk | hk | hk | hk
        · exact Or.inr ⟨d, hd, hk.1⟩
        all_goals exact Or.inl ⟨d, hd, by omega⟩
    · rintro (⟨d, hd, h⟩ | h)
      · exact Or.inr ⟨d, hd, by omega⟩
      · exact Or.inl h
  · rw [ht.ident, ht.rank]
    show _ ↔ (∃ d ∈ seen, 2 < d.kind.rank) ∨ _
    constructor
    · rintro (h | ⟨d, hd, h⟩)
      · exact Or.inr h
      · rcases rank_cases d.kind with hk | hk | hk | hk | hk | hk
        · omega
        · exact Or.inr ⟨d, hd, hk.1⟩
        all_goals exact Or.inl ⟨d, hd, by omega⟩
    · rintro (⟨d, hd, h⟩ | h)
      · exact Or.inr ⟨d, hd, by omega⟩
      · exact Or.inl h
  · rw [ht.rank]; rfl
  · rw [ht.rank]; rfl
  · rw [ht.rank]; rfl
  · rw [ht.pseudoEl, ht.rank]
    show _ ↔ (∃ d ∈ seen, 6 < d.kind.rank) ∨ _
    constructor
    · rintro (h | h)
      · exact Or.inr h
      · exact Or.inl h
    · rintro (h | h)
      · exact Or.inr h
      · exact Or.inl h

/-- The facade records the empty sequence of calls. -/
theorem tracks_nil : Tracks [] cssSelectorBuilder := by
  constructor <;> simp [cssSelectorBuilder]

/-- The selector handed back by a call that returns records the call as well. -/
theorem tracks_step {seen : List Call} {s : Sel} (ht : Tracks seen s) (c : Call) (ret : Ret)
    (hok : (c.apply s).2 = .ok ret) : Tracks (seen ++ [c]) (c.returned s) := by
  have hnv : ¬ violates seen c := by
    rw [← throws_iff_violates ht]
    rintro ⟨e, he⟩
    rw [he] at hok
    cases hok
  obtain ⟨-, -, hr, he, hi, hp⟩ := returned_fields c s ret hok
  simp only [violates, not_or, not_exists, not_and, not_lt] at hnv
  constructor
  · intro n
    rw [hr]
    constructor
    · intro h
      exact ⟨c, by simp, h⟩
    · rintro ⟨d, hd, h⟩
      rcases List.mem_append.1 hd with hd | hd
      · have := hnv.1 d hd
        omega
      · simp at hd
        subst hd
        exact h
  · rw [he, Bool.or_eq_true, ht.elem, decide_eq_true_eq]
    constructor
    · rintro (⟨d, hd, h⟩ | h)
      · exact ⟨d, List.mem_append_left _ hd, h⟩
      · exact ⟨c, by simp, h⟩
    · rintro ⟨d, hd, h⟩
      rcases List.mem_append.1 hd with hd | hd
      · exact Or.inl ⟨d, hd, h⟩
      · simp at hd
        subst hd
        exact Or.inr h
  · rw [hi, Bool.or_eq_true, ht.ident, decide_eq_true_eq]
    constructor
    · rintro (⟨d, hd, h⟩ | h)
      · exact ⟨d, List.mem_append_left _ hd, h⟩
      · exact ⟨c, by simp, h⟩
    · rintro ⟨d, hd, h⟩
      rcases List.mem_append.1 hd with hd | hd
      · exact Or.inl ⟨d, hd, h⟩
      · simp at hd
        subst hd
        exact Or.inr h
  · rw [hp, Bool.or_eq_true, ht.pseudoEl, decide_eq_true_eq]
    constructor
    · rintro (⟨d, hd, h⟩ | h)
      · exact ⟨d, List.mem_append_left _ hd, h⟩
      · exact ⟨c, by simp, h⟩
    · rintro ⟨d, hd, h⟩
      rcases List.mem_append.1 hd with hd | hd
      · exact Or.inl ⟨d, hd, h⟩
      · simp at hd
        subst hd
        exact Or.inr h

/-- A call on the heap throws what the method throws. -/
theorem call_throw_iff (h : Heap) (r : Ref) (c : Call) (e : Err) :
    (h.call r c).2 = .throw e ↔ (c.apply (h.objs r)).2 = .throw e := by
  unfold Heap.call Heap.commit
  rcases hres : c.apply (h.objs r) with ⟨s1, _ | _ | _⟩ <;> simp

/-- A call that throws writes nothing to the heap. -/
theorem call_throw_heap (h : Heap) (r : Ref) (c : Call) (e : Err)
    (ht : (h.call r c).2 = .throw e) : (h.call r c).1 = h := by
  have hs := apply_throw_state c (h.objs r) e ((call_throw_iff h r c e).1 ht)
  unfold Heap.call Heap.commit at ht ⊢
  rcases hres : c.apply (h.objs r) with ⟨s1, _ | _ | _⟩ <;> simp [hres] at ht hs ⊢
  subst hs
  simp

/-- The cell behind the reference handed back holds the selector the method returned. -/
theorem call_ok_returned (h : Heap) (r r1 : Ref) (c : Call) (hok : (h.call r c).2 = .ok r1) :
    (h.call r c).1.objs r1 = c.returned (h.objs r) ∧
    ∃ ret, (c.apply (h.objs r)).2 = .ok ret := by
  unfold Heap.call Heap.commit at hok ⊢
  unfold Call.returned
  rcases hres : c.apply (h.objs r) with ⟨s1, _ | _ | _⟩ <;> simp [hres] at hok ⊢
  · subst hok; simp
  · subst hok; simp

/-- A chain on a selector that records `seen` returns at every call when no call
completes a violation, and otherwise throws at the first call that does. -/
theorem chain_spec (cs : List Call) : ∀ (seen : List Call) (h : Heap) (r : Ref),
    Tracks seen (h.objs r) →
    (∀ r1, (h.chain r cs).2.2 = .ok r1 →
      (∀ pre d post, cs = pre ++ d :: post → ¬ violates (seen ++ pre) d) ∧
      Tracks (seen ++ cs) ((h.chain r cs).1.objs r1) ∧ (h.chain r cs).2.1 = cs.length) ∧
    (∀ e, (h.chain r cs).2.2 = .throw e →
      ∃ pre d post, cs = pre ++ d :: post ∧ pre.length = (h.chain r cs).2.1 ∧
        violates (seen ++ pre) d ∧
        ∀ pre1 d1 post1, pre = pre1 ++ d1 :: post1 → ¬ violates (seen ++ pre1) d1) := by
  induction cs with
  | nil =>
    intro seen h r ht
    refine ⟨?_, ?_⟩
    · intro r1 hr
      simp only [Heap.chain] at hr ⊢
      cases hr
      refine ⟨?_, by simpa using ht, rfl⟩
      intro pre d post hcs
      simp at hcs
    · intro e he
      simp [Heap.chain] at he
  | cons c cs ih =>
    intro seen h r ht
    rcases hcall : h.call r c with ⟨h1, e | r1⟩
    · -- the first call throws
      have hv : violates seen c :=
        (throws_iff_violates ht c).1 ⟨e, (call_throw_iff h r c e).1 (by rw [hcall])⟩
      simp only [Heap.chain, hcall]
      refine ⟨?_, ?_⟩
      · intro r1 hr
        cases hr
      intro e1 _
      refine ⟨[], c, cs, rfl, rfl, by simpa using hv, ?_⟩
      intro pre1 d1 post1 hpre
      simp at hpre
    · -- the first call returns
      have hok : (h.call r c).2 = .ok r1 := by rw [hcall]
      obtain ⟨hobj, ret, hret⟩ := call_ok_returned h r r1 c hok
      rw [hcall] at hobj
      have hnv : ¬ violates seen c := by
        rw [← throws_iff_violates ht]
        rintro ⟨e, he⟩
        rw [he] at hret
        cases hret
      have ht1 : Tracks (seen ++ [c]) (h1.objs r1) := by
        rw [hobj]; exact tracks_step ht c ret hret
      obtain ⟨ihok, ihthrow⟩ := ih (seen ++ [c]) h1 r1 ht1
      simp only [Heap.chain, hcall]
      refine ⟨?_, ?_⟩
      · intro r2 hr2
        obtain ⟨hfree, htr, hlen⟩ := ihok r2 hr2
        refine ⟨?_, by simpa using htr, by simp [hlen]⟩
        intro pre d post hcs
        rcases pre with _ | ⟨p, pre⟩
        · simp at hcs
          rw [← hcs.1]
          simpa using hnv
        · simp at hcs
          have := hfree pre d post hcs.2
          rw [← hcs.1]
          simpa using this
      · intro e he
        obtain ⟨pre, d, post, hcs, hlen, hv, hfirst⟩ := ihthrow e he
        refine ⟨c :: pre, d, post, by simp [hcs], by simp [hlen], by simpa using hv, ?_⟩
        intro pre1 d1 post1 hpre
        rcases pre1 with _ | ⟨p, pre1⟩
        · simp at hpre
          rw [← hpre.1]
          simpa using hnv
        · simp at hpre
          have := hfirst pre1 d1 post1 hpre.2
          rw [← hpre.1]
          simpa using this

/-- The text after a chain that returned is the text before followed by the renderings. -/
theorem chain_css (cs : List Call) : ∀ (h : Heap) (r r1 : Ref),
    (h.chain r cs).2.2 = .ok r1 →
    ((h.chain r cs).1.objs r1).css = (h.objs r).css ++ renderAll cs := by
  induction cs with
  | nil =>
    intro h r r1 hr
    simp only [Heap.chain] at hr ⊢
    cases hr
    simp [renderAll]
  | cons c cs ih =>
    intro h r r2 hr
    rcases hcall : h.call r c with ⟨h1, e | r1⟩
    · simp [Heap.chain, hcall] at hr
    · simp only [Heap.chain, hcall] at hr ⊢
      have hok : (h.call r c).2 = .ok r1 := by rw [hcall]
      obtain ⟨hobj, ret, hret⟩ := call_ok_returned h r r1 c hok
      rw [hcall] at hobj
      rw [ih h1 r1 r2 hr, hobj, (returned_fields c (h.objs r) ret hret).1, renderAll,
        String.append_assoc]

/-- In a sequence with non-decreasing ranks and no repeated singleton kind no call
completes a violation. -/
theorem no_violation_of_ordered (calls : List Call)
    (hord : calls.Pairwise (fun a b => a.kind.rank ≤ b.kind.rank))
    (hone : ∀ k : Kind, k.singleton = true → (calls.map Call.kind).count k ≤ 1)
    (pre : List Call) (d : Call) (post : List Call) (hcs : calls = pre ++ d :: post) :
    ¬ violates pre d := by
  subst hcs
  rintro (⟨x, hx, hlt⟩ | ⟨hs, x, hx, hk⟩)
  · have := (List.pairwise_append.1 hord).2.2 x hx d (by simp)
    omega
  · have h1 := hone d.kind hs
    have h2 : 0 < (pre.map Call.kind).count d.kind :=
      List.count_pos_iff.2 (List.mem_map.2 ⟨x, hx, hk⟩)
    simp only [List.map_append, List.map_cons, List.count_append, List.count_cons_self] at h1
    omega

/-- On an in-progress selector a fragment method that returns ends in `return this`. -/
theorem apply_ctrl_self (c : Call) (s : Sel) (ret : Ret) (hc : s.ctrl = true)
    (h : (c.apply s).2 = .ok ret) : ret = .self := by
  rcases c with ⟨k, v⟩
  cases k <;> simp only [Call.apply, element, id, «class», attr, pseudoClass, pseudoElement, returner] at h <;>
    split_ifs at h <;> simp_all

/-- On an in-progress selector a fragment call that returns hands back its receiver. -/
theorem call_ctrl_self (h : Heap) (r r1 : Ref) (c : Call) (hc : (h.objs r).ctrl = true)
    (hok : (h.call r c).2 = .ok r1) : r1 = r := by
  unfold Heap.call Heap.commit at hok
  rcases hres : c.apply (h.objs r) with ⟨s1, e | ret⟩
  · simp [hres] at hok
  · have := apply_ctrl_self c (h.objs r) ret hc (by rw [hres])
    subst this
    simp [hres] at hok
    exact hok.symm

/-- A method whose singleton flag is set throws the duplicate error. -/
theorem flag_throws_duplicate (k : Kind) (w : String) (s : Sel) (hf : k.flag s = true) :
    ((⟨k, w⟩ : Call).apply s).2 = .throw .duplicate := by
  cases k <;> simp_all [Kind.flag, Call.apply, element, id, pseudoElement]

/-- A singleton flag of the selector handed back is set when it was set before or the
call is of that kind. -/
theorem returned_flag (c : Call) (s : Sel) (ret : Ret) (h : (c.apply s).2 = .ok ret) (k : Kind)
    (hk : k.singleton = true) :
    k.flag (c.returned s) = (k.flag s || decide (c.kind = k)) := by
  obtain ⟨-, -, -, he, hi, hp⟩ := returned_fields c s ret h
  cases k <;> simp_all [Kind.flag, Kind.singleton]

/-- Along a chain on an in-progress selector every call returns the selector itself, and
a singleton flag that is set stays set. -/
theorem chain_ctrl (cs : List Call) : ∀ (h : Heap) (r r2 : Ref),
    (h.objs r).ctrl = true → (h.chain r cs).2.2 = .ok r2 →
    r2 = r ∧ ((h.chain r cs).1.objs r).ctrl = true ∧
    ∀ k : Kind, k.singleton = true → k.flag (h.objs r) = true →
      k.flag ((h.chain r cs).1.objs r) = true := by
  induction cs with
  | nil =>
    intro h r r2 hc hr
    simp only [Heap.chain] at hr ⊢
    cases hr
    exact ⟨rfl, hc, fun _ _ hf => hf⟩
  | cons c cs ih =>
    intro h r r2 hc hr
    rcases hcall : h.call r c with ⟨h1, e | r1⟩
    · simp [Heap.chain, hcall] at hr
    · simp only [Heap.chain, hcall] at hr ⊢
      have hok : (h.call r c).2 = .ok r1 := by rw [hcall]
      obtain ⟨hobj, ret, hret⟩ := call_ok_returned h r r1 c hok
      have hr1 := call_ctrl_self h r r1 c hc hok
      subst hr1
      rw [hcall] at hobj
      have hc1 : (h1.objs r1).ctrl = true := by
        rw [hobj]; exact (returned_fields c _ ret hret).2.1
      obtain ⟨h2, hc2, hfl⟩ := ih h1 r1 r2 hc1 hr
      refine ⟨h2, hc2, ?_⟩
      intro k hk hf
      apply hfl k hk
      rw [hobj, returned_flag c _ ret hret k hk, hf]
      rfl

/-- Every fragment method called on an object with the fields of the source's object
literal returns a created object and puts the receiver back to those fields. -/
theorem apply_fresh (c : Call) :
    c.apply cssSelectorBuilder =
      (cssSelectorBuilder, .ok (.created (c.returned cssSelectorBuilder))) := by
  rcases c with ⟨k, v⟩
  cases k <;> simp [Call.returned, Call.apply, element, id, «class», attr, pseudoClass,
    pseudoElement, returner, cssSelectorBuilder]

/-- A fragment call writes to its receiver and to a newly allocated cell only. -/
theorem call_frame (h : Heap) (r : Ref) (c : Call) (x : Ref) (hx : x ≠ r) (hn : x ≠ h.next) :
    (h.call r c).1.objs x = h.objs x := by
  unfold Heap.call Heap.commit
  rcases c.apply (h.objs r) with ⟨s1, _ | _ | _⟩ <;> simp [Function.update, hx, hn]

/-- A `combine` call writes to its receiver and to a newly allocated cell only. -/
theorem combine_frame (h : Heap) (r a b : Ref) (comb : String) (x : Ref) (hx : x ≠ r)
    (hn : x ≠ h.next) : (h.combine r a comb b).1.objs x = h.objs x := by
  unfold Heap.combine Heap.commit
  rcases (CssSelector.combine (h.objs r) (h.objs a) comb (h.objs b)).2 with _ | _ <;>
    simp [Function.update, hx, hn]

/-- A fragment call on the fresh facade: a new object is allocated and returned, and the
facade keeps its fields. -/
theorem call_facade (h : Heap) (c : Call) (hf : h.objs facade = cssSelectorBuilder)
    (hn : 0 < h.next) :
    (h.call facade c).2 = .ok h.next ∧ (h.call facade c).1.objs facade = cssSelectorBuilder ∧
    (h.call facade c).1.next = h.next + 1 ∧
    (h.call facade c).1.objs h.next = c.returned cssSelectorBuilder := by
  have hne : facade ≠ h.next := Nat.ne_of_lt hn
  unfold Heap.call Heap.commit
  rw [hf, apply_fresh]
  simp [Function.update, hne, hf]

/-- A `combine` call on the fresh facade: a new object is allocated and returned, and the
facade keeps its fields. -/
theorem combine_facade (h : Heap) (a b : Ref) (comb : String)
    (hf : h.objs facade = cssSelectorBuilder) (hn : 0 < h.next) :
    (h.combine facade a comb b).2 = .ok h.next ∧
    (h.combine facade a comb b).1.objs facade = cssSelectorBuilder ∧
    (h.combine facade a comb b).1.next = h.next + 1 ∧
    (h.combine facade a comb b).1.objs h.next =
      { cssSelectorBuilder with
        css := h.stringify a ++ " " ++ comb ++ " " ++ h.stringify b, ctrl := true } := by
  have hne : facade ≠ h.next := Nat.ne_of_lt hn
  unfold Heap.combine Heap.commit
  rw [hf]
  simp [CssSelector.combine, returner, cssSelectorBuilder, Function.update, hne,
    Heap.stringify]

/-- A fragment call frees no cell. -/
theorem call_next (h : Heap) (r : Ref) (c : Call) : h.next ≤ (h.call r c).1.next := by
  unfold Heap.call Heap.commit
  rcases c.apply (h.objs r) with ⟨s1, _ | _ | _⟩ <;> simp

/-- A `combine` call frees no cell. -/
theorem combine_next (h : Heap) (r a b : Ref) (comb : String) :
    h.next ≤ (h.combine r a comb b).1.next := by
  unfold Heap.combine Heap.commit
  rcases (CssSelector.combine (h.objs r) (h.objs a) comb (h.objs b)).2 with _ | _ <;> simp

/-- A `stringify` call writes nothing: the heap after it is the heap before. -/
theorem callStringify_heap (h : Heap) (r : Ref) : (h.callStringify r).1 = h := by
  simp [Heap.callStringify, stringifyCall]

/-- One operation of a program keeps the facade at the fields of the source's literal. -/
theorem step_facade (h : Heap) (op : Op) (hf : h.objs facade = cssSelectorBuilder)
    (hn : 0 < h.next) :
    (h.step op).objs facade = cssSelectorBuilder ∧ 0 < (h.step op).next := by
  have hne : facade ≠ h.next := Nat.ne_of_lt hn
  cases op with
  | call r c =>
    simp only [Heap.step]
    split_ifs with hr
    · refine ⟨?_, Nat.lt_of_lt_of_le hn (call_next h r c)⟩
      by_cases h0 : r = facade
      · subst h0; exact (call_facade h c hf hn).2.1
      · rw [call_frame h r c facade (Ne.symm h0) hne, hf]
    · exact ⟨hf, hn⟩
  | combine r a comb b =>
    simp only [Heap.step]
    split_ifs with hr
    · refine ⟨?_, Nat.lt_of_lt_of_le hn (combine_next h r a b comb)⟩
      by_cases h0 : r = facade
      · subst h0; exact (combine_facade h a b comb hf hn).2.1
      · rw [combine_frame h r a b comb facade (Ne.symm h0) hne, hf]
    · exact ⟨hf, hn⟩
  | stringify r =>
    simp only [Heap.step]
    split_ifs with hr
    · rw [callStringify_heap]; exact ⟨hf, hn⟩
    · exact ⟨hf, hn⟩

/-- Whatever program has run, the facade has the fields of the source's literal. -/
theorem run_facade (ops : List Op) : ∀ (h : Heap), h.objs facade = cssSelectorBuilder →
    0 < h.next → (h.run ops).objs facade = cssSelectorBuilder ∧ 0 < (h.run ops).next := by
  induction ops with
  | nil => intro h hf hn; exact ⟨hf, hn⟩
  | cons op ops ih =>
    intro h hf hn
    obtain ⟨hf1, hn1⟩ := step_facade h op hf hn
    simpa [Heap.run] using ih (h.step op) hf1 hn1

/-- After any program run from the initial heap the facade has its literal fields. -/
theorem init_run_facade (ops : List Op) :
    (Heap.init.run ops).objs facade = cssSelectorBuilder ∧ 0 < (Heap.init.run ops).next :=
  run_facade ops Heap.init rfl (by decide)

/-- A fragment call that returns on an in-progress selector returns that selector. -/
theorem call_of_ctrl (h : Heap) (r : Ref) (c : Call) (ret : Ret)
    (hc : (h.objs r).ctrl = true) (hok : (c.apply (h.objs r)).2 = .ok ret) :
    (h.call r c).2 = .ok r ∧ (h.call r c).1.objs r = c.returned (h.objs r) ∧
    (h.call r c).1.next = h.next := by
  have hs := apply_ctrl_self c _ ret hc hok
  subst hs
  unfold Call.returned Heap.call Heap.commit
  rcases hres : c.apply (h.objs r) with ⟨s1, _ | _ | _⟩ <;> simp [hres] at hok ⊢

/-- Consecutive calls of one repeatable kind on an in-progress selector of that rank. -/
theorem chain_repeat (k : Kind) (hk : k = .«class» ∨ k = .attr ∨ k = .pseudoClass)
    (vs : List String) : ∀ (h : Heap) (r : Ref), (h.objs r).ctrl = true →
    (h.objs r).sequenceControl = k.rank →
    (h.chain r (vs.map (Call.mk k))).2.2 = .ok r ∧
    (h.chain r (vs.map (Call.mk k))).2.1 = vs.length ∧
    ((h.chain r (vs.map (Call.mk k))).1.objs r).css =
      vs.foldl (fun t w => t ++ (Call.mk k w).render) (h.objs r).css := by
  induction vs with
  | nil => intro h r _ _; simp [Heap.chain]
  | cons w vs ih =>
    intro h r hc hs
    have hnt : ¬ ∃ e, ((Call.mk k w).apply (h.objs r)).2 = .throw e := by
      rw [throws_iff]
      rcases hk with hk | hk | hk <;> subst hk <;> simp [hs, Kind.rank]
    obtain ⟨ret, hret⟩ := (ok_or_throw (Call.mk k w) (h.objs r)).resolve_right hnt
    obtain ⟨hcall, hobj, -⟩ := call_of_ctrl h r _ ret hc hret
    obtain ⟨hcss, hctrl, hrank, -⟩ := returned_fields _ _ ret hret
    rw [← hobj] at hcss hctrl hrank
    obtain ⟨i1, i2, i3⟩ := ih (h.call r (Call.mk k w)).1 r hctrl hrank
    rcases hres : h.call r (Call.mk k w) with ⟨h1, e | r1⟩
    · rw [hres] at hcall; cases hcall
    · rw [hres] at hcall i1 i2 i3 hcss
      cases hcall
      simp only [List.map_cons, Heap.chain, hres, List.length_cons, List.foldl_cons]
      exact ⟨i1, by rw [i2], by rw [i3, hcss]⟩

/-- A call writes to its receiver and to a newly allocated cell only. -/
theorem commit_frame (h : Heap) (r : Ref) (res : Sel × Outcome Ret) (x : Ref) (hx : x ≠ r)
    (hn : x ≠ h.next) : (h.commit r res).1.objs x = h.objs x := by
  unfold Heap.commit
  rcases res with ⟨s1, _ | _ | _⟩ <;> simp [Function.update, hx, hn]

/-- A call frees no cell. -/
theorem commit_next (h : Heap) (r : Ref) (res : Sel × Outcome Ret) :
    h.next ≤ (h.commit r res).1.next := by
  unfold Heap.commit
  rcases res with ⟨s1, _ | _ | _⟩ <;> simp

/-- A call hands back its receiver or the cell it has just allocated. -/
theorem commit_ok_ref (h : Heap) (r r1 : Ref) (res : Sel × Outcome Ret)
    (hok : (h.commit r res).2 = .ok r1) :
    (r1 = r ∧ (h.commit r res).1.next = h.next) ∨
    (r1 = h.next ∧ (h.commit r res).1.next = h.next + 1) := by
  unfold Heap.commit at hok ⊢
  rcases res with ⟨s1, _ | _ | _⟩ <;> simp at hok ⊢ <;> exact hok.symm

/-- What the caller sees of a call depends on what the method returned only. -/
theorem observe_commit (h : Heap) (r : Ref) (res : Sel × Outcome Ret) :
    observe (h.commit r res) =
      match res with
      | (_, .throw e) => .throw e
      | (this1, .ok .self) => .ok this1
      | (_, .ok (.created newObj)) => .ok newObj := by
  unfold Heap.commit observe
  rcases res with ⟨s1, _ | _ | _⟩ <;> simp

/-- The effect on the heap of a call whose receiver is the facade, put back by the method
to its literal fields, or an object allocated from `n0` on. -/
theorem commit_step (h : Heap) (r n0 : Ref) (res : Sel × Outcome Ret) (hF : h.Fresh)
    (hr : r = facade ∨ n0 ≤ r) (hrn : r < h.next) (hn0 : n0 ≤ h.next)
    (hres : r = facade → res.1 = cssSelectorBuilder) :
    (h.commit r res).1.Fresh ∧ h.next ≤ (h.commit r res).1.next ∧
    (∀ x, x ≠ facade → x < n0 → (h.commit r res).1.objs x = h.objs x) ∧
    (∀ r1, (h.commit r res).2 = .ok r1 →
      (r1 = facade ∨ n0 ≤ r1) ∧ r1 < (h.commit r res).1.next) := by
  obtain ⟨hf, hn⟩ := hF
  have hne : facade ≠ h.next := Nat.ne_of_lt hn
  refine ⟨⟨?_, Nat.lt_of_lt_of_le hn (commit_next h r res)⟩, commit_next h r res, ?_, ?_⟩
  · by_cases h0 : r = facade
    · have h1 := hres h0
      subst h0
      unfold Heap.commit
      rcases res with ⟨s1, _ | _ | _⟩ <;> simp at h1 <;> subst h1 <;>
        simp [Function.update, hne, hf]
    · rw [commit_frame h r res facade (Ne.symm h0) hne, hf]
  · intro x hx hxn
    apply commit_frame
    · rcases hr with hr | hr
      · rw [hr]; exact hx
      · exact Nat.ne_of_lt (Nat.lt_of_lt_of_le hxn hr)
    · exact Nat.ne_of_lt (Nat.lt_of_lt_of_le hxn hn0)
  · intro r1 hok
    rcases commit_ok_ref h r r1 res hok with ⟨h1, h2⟩ | ⟨h1, h2⟩
    · rw [h1, h2]; exact ⟨hr, hrn⟩
    · rw [h1, h2]; exact ⟨Or.inr hn0, Nat.lt_succ_self _⟩

/-- The method `combine` puts a receiver with the literal fields back to them. -/
theorem combine_fresh_receiver (s1 s2 : Sel) (comb : String) :
    (CssSelector.combine cssSelectorBuilder s1 comb s2).1 = cssSelectorBuilder := by
  simp [CssSelector.combine, returner, cssSelectorBuilder]

/-- Evaluating a construction on a heap whose facade is fresh leaves the facade fresh,
writes to no other object allocated before, and yields the facade or an object it
allocated itself. -/
theorem build_frame (e : Build) : ∀ h : Heap, h.Fresh →
    (h.build e).1.Fresh ∧ h.next ≤ (h.build e).1.next ∧
    (∀ x, x ≠ facade → x < h.next → (h.build e).1.objs x = h.objs x) ∧
    (∀ r, (h.build e).2 = .ok r → (r = facade ∨ h.next ≤ r) ∧ r < (h.build e).1.next) := by
  induction e with
  | facade =>
    intro h hF
    refine ⟨hF, Nat.le_refl _, fun _ _ _ => rfl, ?_⟩
    intro r hr
    simp only [Heap.build] at hr ⊢
    cases hr
    exact ⟨Or.inl rfl, hF.2⟩
  | call recv c ih =>
    intro h hF
    obtain ⟨hF1, hn1, hfr1, hr1⟩ := ih h hF
    rcases hrec : h.build recv with ⟨h1, e | r⟩
    · rw [hrec] at hF1 hn1 hfr1
      simp only [Heap.build, hrec]
      exact ⟨hF1, hn1, hfr1, fun r hr => by cases hr⟩
    · rw [hrec] at hF1 hn1 hfr1 hr1
      obtain ⟨hra, hrb⟩ := hr1 r rfl
      simp only [Heap.build, hrec]
      obtain ⟨g1, g2, g3, g4⟩ := commit_step h1 r h.next (c.apply (h1.objs r)) hF1 hra hrb hn1
        (by intro h0; rw [h0, hF1.1, apply_fresh])
      refine ⟨g1, Nat.le_trans hn1 g2, ?_, g4⟩
      intro x hx hxn
      exact (g3 x hx hxn).trans (hfr1 x hx hxn)
  | combine recv a comb b ih1 ih2 ih3 =>
    intro h hF
    obtain ⟨hF1, hn1, hfr1, hr1⟩ := ih1 h hF
    rcases hrec : h.build recv with ⟨h1, e | r⟩
    · rw [hrec] at hF1 hn1 hfr1
      simp only [Heap.build, hrec]
      exact ⟨hF1, hn1, hfr1, fun r hr => by cases hr⟩
    rw [hrec] at hF1 hn1 hfr1 hr1
    obtain ⟨hra, hrb⟩ := hr1 r rfl
    obtain ⟨hF2, hn2, hfr2, -⟩ := ih2 h1 hF1
    rcases hreca : h1.build a with ⟨h2, e | ra⟩
    · rw [hreca] at hF2 hn2 hfr2
      simp only [Heap.build, hrec, hreca]
      refine ⟨hF2, Nat.le_trans hn1 hn2, ?_, fun r hr => by cases hr⟩
      intro x hx hxn
      exact (hfr2 x hx (Nat.lt_of_lt_of_le hxn hn1)).trans (hfr1 x hx hxn)
    rw [hreca] at hF2 hn2 hfr2
    obtain ⟨hF3, hn3, hfr3, -⟩ := ih3 h2 hF2
    rcases hrecb : h2.build b with ⟨h3, e | rb⟩
    · rw [hrecb] at hF3 hn3 hfr3
      simp only [Heap.build, hrec, hreca, hrecb]
      refine ⟨hF3, Nat.le_trans hn1 (Nat.le_trans hn2 hn3), ?_, fun r hr => by cases hr⟩
      intro x hx hxn
      exact ((hfr3 x hx (Nat.lt_of_lt_of_le hxn (Nat.le_trans hn1 hn2))).trans
        (hfr2 x hx (Nat.lt_of_lt_of_le hxn hn1))).trans (hfr1 x hx hxn)
    rw [hrecb] at hF3 hn3 hfr3
    simp only [Heap.build, hrec, hreca, hrecb]
    have hn13 : h.next ≤ h3.next := Nat.le_trans hn1 (Nat.le_trans hn2 hn3)
    obtain ⟨g1, g2, g3, g4⟩ := commit_step h3 r h.next
      ((CssSelector.combine (h3.objs r) (h3.objs ra) comb (h3.objs rb)).1,
        .ok (CssSelector.combine (h3.objs r) (h3.objs ra) comb (h3.objs rb)).2) hF3 hra
      (Nat.lt_of_lt_of_le hrb (Nat.le_trans hn2 hn3)) hn13
      (by intro h0; rw [h0, hF3.1]; exact combine_fresh_receiver (h3.objs ra) (h3.objs rb) comb)
    refine ⟨g1, Nat.le_trans hn13 g2, ?_, g4⟩
    intro x hx hxn
    exact (((g3 x hx hxn).trans (hfr3 x hx (Nat.lt_of_lt_of_le hxn (Nat.le_trans hn1 hn2)))).trans
      (hfr2 x hx (Nat.lt_of_lt_of_le hxn hn1))).trans (hfr1 x hx hxn)

/-- An object allocated before a construction is evaluated has the same fields after. -/
theorem build_keeps (e : Build) (h : Heap) (hF : h.Fresh) (r : Ref) (hr : r < h.next) :
    (h.build e).1.objs r = h.objs r := by
  obtain ⟨hF1, -, hfr, -⟩ := build_frame e h hF
  by_cases h0 : r = facade
  · rw [h0, hF1.1, hF.1]
  · exact hfr r h0 hr

/-- A call hands back the facade only when it is its receiver and the method ends in
`return this`. -/
theorem commit_ok_facade (h : Heap) (r r1 : Ref) (res : Sel × Outcome Ret) (hn : 0 < h.next)
    (hok : (h.commit r res).2 = .ok r1) : r1 = facade ↔ (r = facade ∧ res.2 = .ok .self) := by
  have hne : h.next ≠ facade := (Nat.ne_of_lt hn).symm
  unfold Heap.commit at hok
  rcases res with ⟨s1, _ | _ | _⟩ <;> simp at hok ⊢
  · rw [hok]
  · rw [← hok]; exact hne

/-- What two callers see of two calls of one method on receivers with equal fields. -/
theorem commit_sim (h1 h2 : Heap) (r1 r2 : Ref) (res : Sel × Outcome Ret)
    (hn1 : 0 < h1.next) (hn2 : 0 < h2.next) (hfac : r1 = facade ↔ r2 = facade) :
    observe (h1.commit r1 res) = observe (h2.commit r2 res) ∧
    ∀ x1 x2, (h1.commit r1 res).2 = .ok x1 → (h2.commit r2 res).2 = .ok x2 →
      (x1 = facade ↔ x2 = facade) := by
  refine ⟨by rw [observe_commit, observe_commit], ?_⟩
  intro x1 x2 hx1 hx2
  rw [commit_ok_facade h1 r1 x1 res hn1 hx1, commit_ok_facade h2 r2 x2 res hn2 hx2, hfac]

/-- A construction shows its caller the same thing on any two heaps whose facade is fresh. -/
theorem build_sim (e : Build) : ∀ h1 h2 : Heap, h1.Fresh → h2.Fresh →
    observe (h1.build e) = observe (h2.build e) ∧
    ∀ r1 r2, (h1.build e).2 = .ok r1 → (h2.build e).2 = .ok r2 →
      (r1 = facade ↔ r2 = facade) := by
  induction e with
  | facade =>
    intro h1 h2 hF1 hF2
    refine ⟨by simp [Heap.build, observe, hF1.1, hF2.1], ?_⟩
    intro r1 r2 hr1 hr2
    simp only [Heap.build] at hr1 hr2
    cases hr1; cases hr2
    exact Iff.rfl
  | call recv c ih =>
    intro h1 h2 hF1 hF2
    obtain ⟨hobs, hfac⟩ := ih h1 h2 hF1 hF2
    obtain ⟨fA, -, -, -⟩ := build_frame recv h1 hF1
    obtain ⟨fB, -, -, -⟩ := build_frame recv h2 hF2
    rcases hA : h1.build recv with ⟨g1, e1 | r1⟩ <;>
      rcases hB : h2.build recv with ⟨g2, e2 | r2⟩ <;>
      rw [hA, hB] at hobs hfac <;> simp only [observe] at hobs <;>
      simp only [Heap.build, hA, hB]
    · refine ⟨by simpa [observe] using hobs, ?_⟩
      intro r1 r2 hr1; cases hr1
    · cases hobs
    · cases hobs
    · rw [hA] at fA
      rw [hB] at fB
      have heq : g1.objs r1 = g2.objs r2 := by injection hobs
      unfold Heap.call
      rw [heq]
      exact commit_sim g1 g2 r1 r2 _ fA.2 fB.2 (hfac r1 r2 rfl rfl)
  | combine recv a comb b ih1 ih2 ih3 =>
    intro h1 h2 hF1 hF2
    obtain ⟨hobs, hfac⟩ := ih1 h1 h2 hF1 hF2
    obtain ⟨fA, -, -, rA⟩ := build_frame recv h1 hF1
    obtain ⟨fB, -, -, rB⟩ := build_frame recv h2 hF2
    rcases hA : h1.build recv with ⟨g1, e1 | r1⟩ <;>
      rcases hB : h2.build recv with ⟨g2, e2 | r2⟩ <;>
      rw [hA, hB] at hobs hfac <;> simp only [observe] at hobs
    · simp only [Heap.build, hA, hB]
      refine ⟨by simpa [observe] using hobs, ?_⟩
      intro r1 r2 hr1; cases hr1
    · cases hobs
    · cases hobs
    rw [hA] at fA rA
    rw [hB] at fB rB
    have heq : g1.objs r1 = g2.objs r2 := by injection hobs
    have hr1 : r1 < g1.next := (rA r1 rfl).2
    have hr2 : r2 < g2.next := (rB r2 rfl).2
    obtain ⟨hobsa, -⟩ := ih2 g1 g2 fA fB
    obtain ⟨fA2, nA2, -, rA2⟩ := build_frame a g1 fA
    obtain ⟨fB2, nB2, -, rB2⟩ := build_frame a g2 fB
    have kA2 := build_keeps a g1 fA r1 hr1
    have kB2 := build_keeps a g2 fB r2 hr2
    rcases hA2 : g1.build a with ⟨k1, e1 | ra1⟩ <;>
      rcases hB2 : g2.build a with ⟨k2, e2 | ra2⟩ <;>
      rw [hA2, hB2] at hobsa <;> simp only [observe] at hobsa
    · simp only [Heap.build, hA, hB, hA2, hB2]
      refine ⟨by simpa [observe] using hobsa, ?_⟩
      intro r1 r2 hr1; cases hr1
    · cases hobsa
    · cases hobsa
    rw [hA2] at fA2 nA2 rA2 kA2
    rw [hB2] at fB2 nB2 rB2 kB2
    have heqa : k1.objs ra1 = k2.objs ra2 := by injection hobsa
    have hra1 : ra1 < k1.next := (rA2 ra1 rfl).2
    have hra2 : ra2 < k2.next := (rB2 ra2 rfl).2
    obtain ⟨hobsb, -⟩ := ih3 k1 k2 fA2 fB2
    obtain ⟨fA3, -, -, -⟩ := build_frame b k1 fA2
    obtain ⟨fB3, -, -, -⟩ := build_frame b k2 fB2
    have kA3 := build_keeps b k1 fA2 r1 (Nat.lt_of_lt_of_le hr1 nA2)
    have kB3 := build_keeps b k2 fB2 r2 (Nat.lt_of_lt_of_le hr2 nB2)
    have kA3a := build_keeps b k1 fA2 ra1 hra1
    have kB3a := build_keeps b k2 fB2 ra2 hra2
    rcases hA3 : k1.build b with ⟨m1, e1 | rb1⟩ <;>
      rcases hB3 : k2.build b with ⟨m2, e2 | rb2⟩ <;>
      rw [hA3, hB3] at hobsb <;> simp only [observe] at hobsb
    · simp only [Heap.build, hA, hB, hA2, hB2, hA3, hB3]
      refine ⟨by simpa [observe] using hobsb, ?_⟩
      intro r1 r2 hr1; cases hr1
    · cases hobsb
    · cases hobsb
    rw [hA3] at fA3 kA3 kA3a
    rw [hB3] at fB3 kB3 kB3a
    have heqb : m1.objs rb1 = m2.objs rb2 := by injection hobsb
    simp only [Heap.build, hA, hB, hA2, hB2, hA3, hB3]
    unfold Heap.combine
    have e1 : m1.objs r1 = m2.objs r2 := by
      rw [show m1.objs r1 = g1.objs r1 from kA3.trans kA2,
        show m2.objs r2 = g2.objs r2 from kB3.trans kB2, heq]
    have e2 : m1.objs ra1 = m2.objs ra2 := by
      rw [show m1.objs ra1 = k1.objs ra1 from kA3a,
        show m2.objs ra2 = k2.objs ra2 from kB3a, heqa]
    rw [e1, e2, heqb]
    exact commit_sim m1 m2 r1 r2 _ fA3.2 fB3.2 (hfac r1 r2 rfl rfl)

/-- A fragment method keeps the object invariant, on the receiver and on what it returns. -/
theorem apply_good (c : Call) (s : Sel) (hg : s.Good) :
    (c.apply s).1.Good ∧ (c.returned s).Good := by
  rcases c with ⟨k, v⟩
  obtain ⟨h6, hp⟩ := hg
  rcases Bool.eq_false_or_eq_true s.pseudoEl with hpe | hpe <;>
  cases k <;>
    simp only [Call.returned, Call.apply, element, id, «class», attr, pseudoClass,
      pseudoElement, returner, Sel.Good] <;>
    split_ifs <;> simp_all

/-- The method `combine` keeps the object invariant, on the receiver and on what it
returns. -/
theorem combine_good (s a b : Sel) (comb : String) (hg : s.Good) :
    (CssSelector.combine s a comb b).1.Good ∧
    ∀ o, (CssSelector.combine s a comb b).2 = .created o → o.Good ∧ o.ctrl = true := by
  obtain ⟨h6, hp⟩ := hg
  simp only [CssSelector.combine, returner, Sel.Good]
  split_ifs <;> simp_all

/-- A fragment method leaves `ctrl` set on an in-progress receiver, and its pseudo-element
flag set when it was. -/
theorem apply_ctrl_receiver (c : Call) (s : Sel) (hc : s.ctrl = true) :
    (c.apply s).1.ctrl = true ∧ (s.pseudoEl = true → (c.apply s).1.pseudoEl = true) := by
  rcases c with ⟨k, v⟩
  cases k <;>
    simp only [Call.apply, element, id, «class», attr, pseudoClass, pseudoElement, returner] <;>
    split_ifs <;> simp_all

/-- The method `combine` on an in-progress receiver appends to its text and changes no
other field. -/
theorem combine_ctrl (s a b : Sel) (comb : String) (hc : s.ctrl = true) :
    CssSelector.combine s a comb b =
      ({ s with css := s.css ++ (stringify a ++ " " ++ comb ++ " " ++ stringify b) },
       .self) := by
  simp [CssSelector.combine, returner, hc]

/-- An object created by a fragment method is an in-progress selector. -/
theorem apply_created (c : Call) (s : Sel) (o : Sel) (hg : s.Good)
    (h : (c.apply s).2 = .ok (.created o)) : o.Good ∧ o.ctrl = true := by
  have hr : c.returned s = o := by simp [Call.returned, h]
  rw [← hr]
  exact ⟨(apply_good c s hg).2, (returned_fields c s _ h).2.1⟩

/-- On a selector whose pseudo-element flag is set and whose rank is 6 every fragment
method throws: `pseudoElement` the duplicate error, `class`, `attr` and `pseudoClass` the
order error. -/
theorem terminal_throws (c : Call) (s : Sel) (hp : s.pseudoEl = true)
    (hs : s.sequenceControl = 6) :
    ∃ e, c.apply s = (s, .throw e) ∧ (c.kind = .pseudoElement → e = .duplicate) ∧
      (c.kind = .«class» ∨ c.kind = .attr ∨ c.kind = .pseudoClass → e = .order) := by
  rcases c with ⟨k, v⟩
  cases k <;>
    simp only [Call.apply, element, id, «class», attr, pseudoClass, pseudoElement] <;>
    split_ifs <;> simp_all

/-- The initial heap satisfies the heap invariant. -/
theorem init_inv : Heap.init.Inv := by
  refine ⟨⟨rfl, by decide⟩, ?_, ?_⟩
  · intro r hr hrn
    exact absurd (Nat.lt_one_iff.1 hrn) hr
  · intro r
    simp [Heap.init, cssSelectorBuilder, Sel.Good]

/-- A call keeps the heap invariant when the method keeps the object invariant, gives
the facade its literal fields back, and leaves `ctrl` set on any other receiver; an
object allocated before whose pseudo-element flag is set keeps it when the method does
not clear it on the receiver. -/
theorem commit_inv (h : Heap) (r : Ref) (res : Sel × Outcome Ret) (hI : h.Inv)
    (hrn : r < h.next) (h1 : res.1.Good)
    (h2 : ∀ o, res.2 = .ok (.created o) → o.Good ∧ o.ctrl = true)
    (h3 : r = facade → res.1 = cssSelectorBuilder)
    (h4 : r ≠ facade → res.1.ctrl = true ∧
      ((h.objs r).pseudoEl = true → res.1.pseudoEl = true)) :
    (h.commit r res).1.Inv ∧ h.next ≤ (h.commit r res).1.next ∧
    ∀ x, x ≠ facade → x < h.next → (h.objs x).pseudoEl = true →
      ((h.commit r res).1.objs x).pseudoEl = true := by
  obtain ⟨hF, hc, hg⟩ := hI
  have hstep := commit_step h r 0 res hF (Or.inr (Nat.zero_le _)) hrn (Nat.zero_le _) h3
  refine ⟨⟨hstep.1, ?_, ?_⟩, hstep.2.1, ?_⟩
  · intro x hx hxn
    rcases res with ⟨s1, e | _ | o⟩ <;> simp only [Heap.commit, Function.update] at hxn ⊢
    · by_cases hxr : x = r
      · simp only [hxr, dite_true, eq_rec_constant]; exact (h4 (hxr ▸ hx)).1
      · simp only [hxr, dite_false]; exact hc x hx hxn
    · by_cases hxr : x = r
      · simp only [hxr, dite_true, eq_rec_constant]; exact (h4 (hxr ▸ hx)).1
      · simp only [hxr, dite_false]; exact hc x hx hxn
    · by_cases hxn1 : x = h.next
      · simp only [hxn1, dite_true, eq_rec_constant]; exact (h2 o rfl).2
      · simp only [hxn1, dite_false]
        by_cases hxr : x = r
        · simp only [hxr, dite_true, eq_rec_constant]; exact (h4 (hxr ▸ hx)).1
        · simp only [hxr, dite_false]
          exact hc x hx (Nat.lt_of_le_of_ne (Nat.lt_succ_iff.1 hxn) hxn1)
  · intro x
    rcases res with ⟨s1, e | _ | o⟩ <;> simp only [Heap.commit, Function.update]
    · by_cases hxr : x = r
      · simp only [hxr, dite_true, eq_rec_constant]; exact h1
      · simp only [hxr, dite_false]; exact hg x
    · by_cases hxr : x = r
      · simp only [hxr, dite_true, eq_rec_constant]; exact h1
      · simp only [hxr, dite_false]; exact hg x
    · by_cases hxn1 : x = h.next
      · simp only [hxn1, dite_true, eq_rec_constant]; exact (h2 o rfl).1
      · simp only [hxn1, dite_false]
        by_cases hxr : x = r
        · simp only [hxr, dite_true, eq_rec_constant]; exact h1
        · simp only [hxr, dite_false]; exact hg x
  · intro x hx hxn hp
    have hxn1 : x ≠ h.next := Nat.ne_of_lt hxn
    rcases res with ⟨s1, e | _ | o⟩ <;> simp only [Heap.commit, Function.update]
    · by_cases hxr : x = r
      · simp only [hxr, dite_true, eq_rec_constant]; exact (h4 (hxr ▸ hx)).2 (hxr ▸ hp)
      · simp only [hxr, dite_false]; exact hp
    · by_cases hxr : x = r
      · simp only [hxr, dite_true, eq_rec_constant]; exact (h4 (hxr ▸ hx)).2 (hxr ▸ hp)
      · simp only [hxr, dite_false]; exact hp
    · simp only [hxn1, dite_false]
      by_cases hxr : x = r
      · simp only [hxr, dite_true, eq_rec_constant]; exact (h4 (hxr ▸ hx)).2 (hxr ▸ hp)
      · simp only [hxr, dite_false]; exact hp

/-- A fragment call on an allocated object keeps the heap invariant. -/
theorem call_inv (h : Heap) (r : Ref) (c : Call) (hI : h.Inv) (hrn : r < h.next) :
    (h.call r c).1.Inv ∧ h.next ≤ (h.call r c).1.next ∧
    ∀ x, x ≠ facade → x < h.next → (h.objs x).pseudoEl = true →
      ((h.call r c).1.objs x).pseudoEl = true := by
  unfold Heap.call
  refine commit_inv h r _ hI hrn (apply_good c _ (hI.2.2 r)).1 ?_ ?_ ?_
  · intro o ho
    exact apply_created c _ o (hI.2.2 r) ho
  · intro h0
    rw [h0, hI.1.1, apply_fresh]
  · intro h0
    exact apply_ctrl_receiver c _ (hI.2.1 r h0 hrn)

/-- A `combine` call on an allocated object keeps the heap invariant. -/
theorem combine_inv (h : Heap) (r a b : Ref) (comb : String) (hI : h.Inv)
    (hrn : r < h.next) :
    (h.combine r a comb b).1.Inv ∧ h.next ≤ (h.combine r a comb b).1.next ∧
    ∀ x, x ≠ facade → x < h.next → (h.objs x).pseudoEl = true →
      ((h.combine r a comb b).1.objs x).pseudoEl = true := by
  unfold Heap.combine
  refine commit_inv h r _ hI hrn (combine_good _ _ _ comb (hI.2.2 r)).1 ?_ ?_ ?_
  · intro o ho
    exact (combine_good _ _ _ comb (hI.2.2 r)).2 o (by simpa using ho)
  · intro h0
    rw [h0, hI.1.1]
    exact combine_fresh_receiver (h.objs a) (h.objs b) comb
  · intro h0
    have hc := hI.2.1 r h0 hrn
    simp only [combine_ctrl _ _ _ comb hc]
    exact ⟨hc, fun hp => hp⟩

/-- One operation of a program keeps the heap invariant, frees no cell, and clears no
pseudo-element flag of a selector. -/
theorem step_inv (h : Heap) (op : Op) (hI : h.Inv) :
    (h.step op).Inv ∧ h.next ≤ (h.step op).next ∧
    ∀ x, x ≠ facade → x < h.next → (h.objs x).pseudoEl = true →
      ((h.step op).objs x).pseudoEl = true := by
  cases op with
  | call r c =>
    simp only [Heap.step]
    split_ifs with hr
    · exact call_inv h r c hI hr
    · exact ⟨hI, Nat.le_refl _, fun _ _ _ hp => hp⟩
  | combine r a comb b =>
    simp only [Heap.step]
    split_ifs with hr
    · exact combine_inv h r a b comb hI hr.1
    · exact ⟨hI, Nat.le_refl _, fun _ _ _ hp => hp⟩
  | stringify r =>
    simp only [Heap.step]
    split_ifs with hr
    · rw [callStringify_heap]; exact ⟨hI, Nat.le_refl _, fun _ _ _ hp => hp⟩
    · exact ⟨hI, Nat.le_refl _, fun _ _ _ hp => hp⟩

/-- A program keeps the heap invariant, frees no cell, and clears no pseudo-element flag
of a selector. -/
theorem run_inv (ops : List Op) : ∀ h : Heap, h.Inv →
    (h.run ops).Inv ∧ h.next ≤ (h.run ops).next ∧
    ∀ x, x ≠ facade → x < h.next → (h.objs x).pseudoEl = true →
      ((h.run ops).objs x).pseudoEl = true := by
  induction ops with
  | nil => intro h hI; exact ⟨hI, Nat.le_refl _, fun _ _ _ hp => hp⟩
  | cons op ops ih =>
    intro h hI
    obtain ⟨s1, s2, s3⟩ := step_inv h op hI
    obtain ⟨i1, i2, i3⟩ := ih (h.step op) s1
    refine ⟨i1, Nat.le_trans s2 i2, ?_⟩
    intro x hx hxn hp
    exact i3 x hx (Nat.lt_of_lt_of_le hxn s2) (s3 x hx hxn hp)

/-- After any program run from the initial heap the heap invariant holds. -/
theorem init_run_inv (ops : List Op) : (Heap.init.run ops).Inv :=
  (run_inv ops Heap.init init_inv).1

/-- Any number of `stringify` calls in a row leave the heap as it was and each return
the text of the receiver. -/
theorem stringifyTimes_spec (r : Ref) (n : Nat) : ∀ h : Heap,
    (h.stringifyTimes r n).1 = h ∧
    (h.stringifyTimes r n).2 = List.replicate n (h.objs r).css := by
  induction n with
  | zero => intro h; exact ⟨rfl, rfl⟩
  | succ n ih =>
    intro h
    simp only [Heap.stringifyTimes, callStringify_heap, List.replicate_succ]
    exact ⟨(ih h).1, by rw [(ih h).2]; rfl⟩

/-- The selector returned by `combine` on the fresh facade records no call. -/
theorem tracks_combined (t : String) :
    Tracks [] { cssSelectorBuilder with css := t, ctrl := true } := by
  constructor <;> simp [cssSelectorBuilder]

/-- A fragment call on an in-progress selector writes to that selector only. -/
theorem call_of_ctrl_frame (h : Heap) (r : Ref) (c : Call) (hc : (h.objs r).ctrl = true)
    (x : Ref) (hx : x ≠ r) : (h.call r c).1.objs x = h.objs x := by
  have hs := apply_ctrl_self c (h.objs r)
  unfold Heap.call Heap.commit
  rcases hres : c.apply (h.objs r) with ⟨s1, _ | _ | o⟩
  · simp [Function.update, hx]
  · simp [Function.update, hx]
  · have := hs (.created o) hc (by rw [hres])
    cases this

/-- The guards of the fragment methods read neither `ctrl` nor `canCreatePseudo`. -/
theorem agree_throw (c : Call) (s t : Sel) (e : Err) (hst : s.agree t) :
    (c.apply s).2 = .throw e ↔ (c.apply t).2 = .throw e := by
  obtain ⟨-, h2, h3, h4, h5⟩ := hst
  rcases c with ⟨k, v⟩
  cases k <;>
    simp only [Call.apply, element, id, «class», attr, pseudoClass, pseudoElement, h2, h3,
      h4, h5] <;>
    split_ifs <;> simp

/-- Two states that agree hand back selectors that agree. -/
theorem agree_returned (c : Call) (s t : Sel) (hst : s.agree t)
    (hok : ∃ ret, (c.apply s).2 = .ok ret) : (c.returned s).agree (c.returned t) := by
  obtain ⟨ret, hret⟩ := hok
  have hokt : ∃ ret1, (c.apply t).2 = .ok ret1 := by
    rcases ok_or_throw c t with h | ⟨e, he⟩
    · exact h
    · rw [← agree_throw c s t e hst, hret] at he
      cases he
  obtain ⟨ret1, hret1⟩ := hokt
  obtain ⟨a1, -, a3, a4, a5, a6⟩ := returned_fields c s ret hret
  obtain ⟨b1, -, b3, b4, b5, b6⟩ := returned_fields c t ret1 hret1
  obtain ⟨h1, h2, h3, h4, h5⟩ := hst
  exact ⟨by rw [a1, b1, h1], by rw [a4, b4, h2], by rw [a5, b5, h3], by rw [a6, b6, h4],
    by rw [a3, b3]⟩

/-- Two states that agree and have the same `ctrl` are left in agreement by a fragment
method. -/
theorem agree_receiver (c : Call) (s t : Sel) (hst : s.agree t) (hc : s.ctrl = t.ctrl) :
    (c.apply s).1.agree (c.apply t).1 := by
  obtain ⟨h1, h2, h3, h4, h5⟩ := hst
  rcases c with ⟨k, v⟩
  cases k <;>
    simp only [Call.apply, element, id, «class», attr, pseudoClass, pseudoElement, returner,
      Sel.agree, h1, h2, h3, h4, h5, hc] <;>
    split_ifs <;> simp_all

/-- What a `pseudoElement` call on an allocated object hands back is an allocated
selector other than the facade, with the pseudo-element flag set; the heap invariant
holds after the call. -/
theorem pseudoElement_returned (h : Heap) (x r : Ref) (v : String) (hI : h.Inv)
    (hx : x < h.next) (hok : (h.call x ⟨.pseudoElement, v⟩).2 = .ok r) :
    (h.call x ⟨.pseudoElement, v⟩).1.Inv ∧ r ≠ facade ∧
    r < (h.call x ⟨.pseudoElement, v⟩).1.next ∧
    ((h.call x ⟨.pseudoElement, v⟩).1.objs r).pseudoEl = true := by
  obtain ⟨hobj, ret, hret⟩ := call_ok_returned h x r _ hok
  have hp : ((h.call x ⟨.pseudoElement, v⟩).1.objs r).pseudoEl = true := by
    rw [hobj, (returned_fields _ _ ret hret).2.2.2.2.2]
    simp
  refine ⟨(call_inv h x _ hI hx).1, ?_, ?_, hp⟩
  · by_cases h0 : x = facade
    · subst h0
      rw [(call_facade h _ hI.1.1 hI.1.2).1] at hok
      cases hok
      exact (Nat.ne_of_lt hI.1.2).symm
    · have h1 := (call_of_ctrl h x _ ret (hI.2.1 x h0 hx) hret).1
      rw [h1] at hok
      cases hok
      exact h0
  · by_cases h0 : x = facade
    · subst h0
      obtain ⟨h1, -, h3, -⟩ := call_facade h ⟨.pseudoElement, v⟩ hI.1.1 hI.1.2
      rw [h1] at hok
      cases hok
      rw [h3]
      exact Nat.lt_succ_self _
    · obtain ⟨h1, -, h3⟩ := call_of_ctrl h x _ ret (hI.2.1 x h0 hx) hret
      rw [h1] at hok
      cases hok
      rw [h3]
      exact hx

/-- C1: a chain of fragment calls from the fresh facade whose ranks never decrease and in
which element, id and pseudo-element occur at most once returns at every call, and
`stringify()` of the result is the concatenation of the renderings in call order. -/
theorem valid_chain_stringify (calls : List Call)
    (hord : calls.Pairwise (fun a b => a.kind.rank ≤ b.kind.rank))
    (hone : ∀ k : Kind, k.singleton = true → (calls.map Call.kind).count k ≤ 1) :
    ∃ r, (Heap.init.chain facade calls).2.2 = .ok r ∧
      (Heap.init.chain facade calls).2.1 = calls.length ∧
      (Heap.init.chain facade calls).1.stringify r = renderAll calls := by
  obtain ⟨hok, hthrow⟩ := chain_spec calls [] Heap.init facade tracks_nil
  rcases hres : (Heap.init.chain facade calls).2.2 with e | r
  · obtain ⟨pre, d, post, hcs, -, hv, -⟩ := hthrow e hres
    exact absurd (by simpa using hv) (no_violation_of_ordered calls hord hone pre d post hcs)
  · refine ⟨r, rfl, (hok r hres).2.2, ?_⟩
    have := chain_css calls Heap.init facade r hres
    simpa [Heap.stringify, stringify, Heap.init, cssSelectorBuilder] using this

/-- Witness for C1: the example `element('a').attr('href$=".png"').pseudoClass('focus')`
of the source's doc comment. -/
theorem valid_chain_stringify_witness :
    ∃ r, (Heap.init.chain facade
        [⟨.element, "a"⟩, ⟨.attr, "href$=\".png\""⟩, ⟨.pseudoClass, "focus"⟩]).2.2 = .ok r ∧
      (Heap.init.chain facade
        [⟨.element, "a"⟩, ⟨.attr, "href$=\".png\""⟩, ⟨.pseudoClass, "focus"⟩]).2.1 =
        [(⟨.element, "a"⟩ : Call), ⟨.attr, "href$=\".png\""⟩, ⟨.pseudoClass, "focus"⟩].length ∧
      (Heap.init.chain facade
        [⟨.element, "a"⟩, ⟨.attr, "href$=\".png\""⟩, ⟨.pseudoClass, "focus"⟩]).1.stringify r =
        renderAll [⟨.element, "a"⟩, ⟨.attr, "href$=\".png\""⟩, ⟨.pseudoClass, "focus"⟩] :=
  valid_chain_stringify
    [⟨.element, "a"⟩, ⟨.attr, "href$=\".png\""⟩, ⟨.pseudoClass, "focus"⟩]
    (by decide) (by intro k _; cases k <;> decide)

/-- C2: in a chain of fragment calls from the fresh facade some call throws exactly when
the sequence holds a call ranked lower than an earlier call or a second element, id or
pseudo-element; and the call that throws is the first one that completes such a
violation (the calls before it all returned and none of them completes one). -/
theorem chain_throws_iff_violation (calls : List Call) :
    ((∃ e, (Heap.init.chain facade calls).2.2 = .throw e) ↔
      ∃ pre c post, calls = pre ++ c :: post ∧ violates pre c) ∧
    (∀ e, (Heap.init.chain facade calls).2.2 = .throw e →
      ∃ pre c post, calls = pre ++ c :: post ∧
        pre.length = (Heap.init.chain facade calls).2.1 ∧ violates pre c ∧
        ∀ pre1 c1 post1, pre = pre1 ++ c1 :: post1 → ¬ violates pre1 c1) := by
  obtain ⟨hok, hthrow⟩ := chain_spec calls [] Heap.init facade tracks_nil
  simp only [List.nil_append] at hok hthrow
  refine ⟨⟨?_, ?_⟩, hthrow⟩
  · rintro ⟨e, he⟩
    obtain ⟨pre, d, post, hcs, -, hv, -⟩ := hthrow e he
    exact ⟨pre, d, post, hcs, hv⟩
  · rintro ⟨pre, d, post, hcs, hv⟩
    rcases hres : (Heap.init.chain facade calls).2.2 with e | r
    · exact ⟨e, rfl⟩
    · exact absurd hv ((hok r hres).1 pre d post hcs)

/-- C3: once `element` has returned a selector, a further `element` on that selector
throws the duplicate error, whatever fragment calls returned in between; the same for
`id` and for `pseudoElement`.  The calls in between all hand back the same selector. -/
theorem singleton_twice_duplicate (h : Heap) (x r r2 : Ref) (k : Kind) (v w : String)
    (mids : List Call) (hk : k.singleton = true)
    (hfirst : (h.call x ⟨k, v⟩).2 = .ok r)
    (hmids : ((h.call x ⟨k, v⟩).1.chain r mids).2.2 = .ok r2) :
    r2 = r ∧
    (((h.call x ⟨k, v⟩).1.chain r mids).1.call r2 ⟨k, w⟩).2 = .throw .duplicate := by
  obtain ⟨hobj, ret, hret⟩ := call_ok_returned h x r ⟨k, v⟩ hfirst
  have hc : ((h.call x ⟨k, v⟩).1.objs r).ctrl = true := by
    rw [hobj]; exact (returned_fields _ _ ret hret).2.1
  have hf : k.flag ((h.call x ⟨k, v⟩).1.objs r) = true := by
    rw [hobj, returned_flag _ _ ret hret k hk]
    simp
  obtain ⟨h2, -, hfl⟩ := chain_ctrl mids _ r r2 hc hmids
  subst h2
  exact ⟨rfl, (call_throw_iff _ _ _ _).2 (flag_throws_duplicate k w _ (hfl k hk hf))⟩

/-- Witness for C3: `element('a').id('b').class('c')` followed by `element('d')`. -/
theorem singleton_twice_duplicate_witness :
    (1 : Ref) = 1 ∧
    (((Heap.init.call facade ⟨.element, "a"⟩).1.chain 1
      [⟨.id, "b"⟩, ⟨.«class», "c"⟩]).1.call 1 ⟨.element, "d"⟩).2 = .throw .duplicate :=
  singleton_twice_duplicate Heap.init facade 1 1 .element "a" "d"
    [⟨.id, "b"⟩, ⟨.«class», "c"⟩] (by decide) (by decide) (by decide)

/-- C4, counterexample: after `id('a').class('b')` the last fragment is a class (rank 3),
and `id('c')` on that selector throws the duplicate error, not the order error. -/
theorem id_after_class_duplicate :
    (Heap.init.chain facade [⟨.id, "a"⟩, ⟨.«class», "b"⟩]).2.2 = .ok 1 ∧
    ((Heap.init.chain facade [⟨.id, "a"⟩, ⟨.«class», "b"⟩]).1.objs 1).sequenceControl = 3 ∧
    ((Heap.init.chain facade [⟨.id, "a"⟩, ⟨.«class», "b"⟩]).1.call 1 ⟨.id, "c"⟩).2 =
      .throw .duplicate ∧
    ((Heap.init.chain facade [⟨.id, "a"⟩, ⟨.«class», "b"⟩]).1.call 1 ⟨.id, "c"⟩).2 ≠
      .throw .order := by
  decide

/-- C4, amended: on a selector whose last fragment is a class (rank 3), `id` throws and
leaves the selector as it was; the error is the order error when no id was given before,
and the duplicate error when one was. -/
theorem id_after_class (s : Sel) (v : String) (hr : s.sequenceControl = 3) :
    id s v = (s, .throw (if s.ident = true then Err.duplicate else Err.order)) := by
  by_cases hi : s.ident = true <;> simp [id, hi, hr]

/-- Witness for C4 (amended): `id('c')` on the selector `class('b')`. -/
theorem id_after_class_witness :
    id { css := ".b", ctrl := true, elem := false, ident := false, pseudoEl := false,
         canCreatePseudo := true, sequenceControl := 3 } "c" =
      ({ css := ".b", ctrl := true, elem := false, ident := false, pseudoEl := false,
         canCreatePseudo := true, sequenceControl := 3 }, .throw Err.order) :=
  id_after_class
    { css := ".b", ctrl := true, elem := false, ident := false, pseudoEl := false,
      canCreatePseudo := true, sequenceControl := 3 } "c" rfl

/-- C5, counterexample: after `element('a').id('b')` the last fragment is an id (rank 2),
and `element('c')` on that selector throws the duplicate error, not the order error. -/
theorem element_after_id_duplicate :
    (Heap.init.chain facade [⟨.element, "a"⟩, ⟨.id, "b"⟩]).2.2 = .ok 1 ∧
    ((Heap.init.chain facade [⟨.element, "a"⟩, ⟨.id, "b"⟩]).1.objs 1).sequenceControl = 2 ∧
    ((Heap.init.chain facade [⟨.element, "a"⟩, ⟨.id, "b"⟩]).1.call 1 ⟨.element, "c"⟩).2 =
      .throw .duplicate ∧
    ((Heap.init.chain facade [⟨.element, "a"⟩, ⟨.id, "b"⟩]).1.call 1 ⟨.element, "c"⟩).2 ≠
      .throw .order := by
  decide

/-- C5, amended: on a selector whose rank is not 0 (in particular rank 2, the last
fragment an id), `element` throws and leaves the selector as it was; the error is the
order error when no element was given before, and the duplicate error when one was. -/
theorem element_after_rank (s : Sel) (v : String) (hr : s.sequenceControl ≠ 0) :
    element s v = (s, .throw (if s.elem = true then Err.duplicate else Err.order)) := by
  by_cases hi : s.elem = true <;> simp [element, hi, hr]

/-- Witness for C5 (amended): `element('c')` on the selector `id('b')`. -/
theorem element_after_rank_witness :
    element { css := "#b", ctrl := true, elem := false, ident := true, pseudoEl := false,
              canCreatePseudo := true, sequenceControl := 2 } "c" =
      ({ css := "#b", ctrl := true, elem := false, ident := true, pseudoEl := false,
         canCreatePseudo := true, sequenceControl := 2 }, .throw Err.order) :=
  element_after_rank
    { css := "#b", ctrl := true, elem := false, ident := true, pseudoEl := false,
      canCreatePseudo := true, sequenceControl := 2 } "c" (by decide)

/-- C6: when `class(v)` has just returned a selector, any number of further consecutive
`class` calls on it all return that selector, and each extends the text by exactly its
rendering `.value`, in order; likewise `attr` with `[value]` and `pseudoClass` with
`:value`. -/
theorem repeated_calls_extend (h : Heap) (x r : Ref) (k : Kind) (v : String)
    (vs : List String) (hk : k = .«class» ∨ k = .attr ∨ k = .pseudoClass)
    (hfirst : (h.call x ⟨k, v⟩).2 = .ok r) :
    ((h.call x ⟨k, v⟩).1.chain r (vs.map (Call.mk k))).2.2 = .ok r ∧
    ((h.call x ⟨k, v⟩).1.chain r (vs.map (Call.mk k))).2.1 = vs.length ∧
    (((h.call x ⟨k, v⟩).1.chain r (vs.map (Call.mk k))).1.objs r).css =
      vs.foldl (fun t w => t ++ (Call.mk k w).render) ((h.call x ⟨k, v⟩).1.objs r).css := by
  obtain ⟨hobj, ret, hret⟩ := call_ok_returned h x r ⟨k, v⟩ hfirst
  obtain ⟨-, hctrl, hrank, -⟩ := returned_fields _ _ ret hret
  rw [← hobj] at hctrl hrank
  exact chain_repeat k hk vs _ r hctrl hrank

/-- Witness for C6: `class('container')` on the facade, then `class('editable')` and
`class('draggable')`. -/
theorem repeated_calls_extend_witness :
    ((Heap.init.call facade ⟨.«class», "container"⟩).1.chain 1
      (["editable", "draggable"].map (Call.mk .«class»))).2.2 = .ok 1 ∧
    ((Heap.init.call facade ⟨.«class», "container"⟩).1.chain 1
      (["editable", "draggable"].map (Call.mk .«class»))).2.1 =
      ["editable", "draggable"].length ∧
    (((Heap.init.call facade ⟨.«class», "container"⟩).1.chain 1
      (["editable", "draggable"].map (Call.mk .«class»))).1.objs 1).css =
      ["editable", "draggable"].foldl (fun t w => t ++ (Call.mk .«class» w).render)
        ((Heap.init.call facade ⟨.«class», "container"⟩).1.objs 1).css :=
  repeated_calls_extend Heap.init facade 1 .«class» "container" ["editable", "draggable"]
    (Or.inl rfl) (by decide)

/-- C7: `combine(a, c, b)` called on the facade, after any program, returns a selector
whose `stringify()` is `a.stringify() + ' ' + c + ' ' + b.stringify()`. -/
theorem combine_facade_stringify (ops : List Op) (a b : Ref) (c : String) :
    ∃ r, ((Heap.init.run ops).combine facade a c b).2 = .ok r ∧
      ((Heap.init.run ops).combine facade a c b).1.stringify r =
        (Heap.init.run ops).stringify a ++ " " ++ c ++ " " ++ (Heap.init.run ops).stringify b := by
  obtain ⟨hf, hn⟩ := init_run_facade ops
  obtain ⟨h1, -, -, h4⟩ := combine_facade (Heap.init.run ops) a b c hf hn
  exact ⟨_, h1, by rw [Heap.stringify, h4]; rfl⟩

/-- C8: the selector returned by `combine` called on the facade, after any program and
for any two operands, has rank 0 and none of the three singleton flags set. -/
theorem combine_facade_reset (ops : List Op) (a b : Ref) (c : String) :
    ∃ r, ((Heap.init.run ops).combine facade a c b).2 = .ok r ∧
      (((Heap.init.run ops).combine facade a c b).1.objs r).sequenceControl = 0 ∧
      (((Heap.init.run ops).combine facade a c b).1.objs r).elem = false ∧
      (((Heap.init.run ops).combine facade a c b).1.objs r).ident = false ∧
      (((Heap.init.run ops).combine facade a c b).1.objs r).pseudoEl = false := by
  obtain ⟨hf, hn⟩ := init_run_facade ops
  obtain ⟨h1, -, -, h4⟩ := combine_facade (Heap.init.run ops) a b c hf hn
  refine ⟨_, h1, ?_⟩
  rw [h4]
  exact ⟨rfl, rfl, rfl, rfl⟩

/-- C9: a fragment call that throws leaves every field of the receiver, and the whole
heap, as it was before the call. -/
theorem throw_leaves_state (h : Heap) (r : Ref) (c : Call) (e : Err)
    (ht : (h.call r c).2 = .throw e) :
    (c.apply (h.objs r)).1 = h.objs r ∧ (h.call r c).1 = h :=
  ⟨apply_throw_state c (h.objs r) e ((call_throw_iff h r c e).1 ht), call_throw_heap h r c e ht⟩

/-- Witness for C9: `element('c')` on the selector `element('a').id('b')`. -/
theorem throw_leaves_state_witness :
    ((⟨.element, "c"⟩ : Call).apply
      ((Heap.init.chain facade [⟨.element, "a"⟩, ⟨.id, "b"⟩]).1.objs 1)).1 =
      (Heap.init.chain facade [⟨.element, "a"⟩, ⟨.id, "b"⟩]).1.objs 1 ∧
    ((Heap.init.chain facade [⟨.element, "a"⟩, ⟨.id, "b"⟩]).1.call 1 ⟨.element, "c"⟩).1 =
      (Heap.init.chain facade [⟨.element, "a"⟩, ⟨.id, "b"⟩]).1 :=
  throw_leaves_state (Heap.init.chain facade [⟨.element, "a"⟩, ⟨.id, "b"⟩]).1 1
    ⟨.element, "c"⟩ .duplicate (by decide)

/-- C10: after any program, every fragment call and every `combine` call on the facade
returns a newly allocated selector and leaves the facade with the fields of its literal
(text '', all flags false, rank 0); and every construction shows its caller the same
outcome, the same text and state, as on the heap of a facade never used before. -/
theorem facade_reusable (ops : List Op) :
    (∀ c : Call, ∃ r, ((Heap.init.run ops).call facade c).2 = .ok r ∧
      (Heap.init.run ops).next ≤ r ∧ r ≠ facade ∧
      ((Heap.init.run ops).call facade c).1.objs facade = cssSelectorBuilder) ∧
    (∀ (a b : Ref) (comb : String), ∃ r,
      ((Heap.init.run ops).combine facade a comb b).2 = .ok r ∧
      (Heap.init.run ops).next ≤ r ∧ r ≠ facade ∧
      ((Heap.init.run ops).combine facade a comb b).1.objs facade = cssSelectorBuilder) ∧
    (∀ e : Build, observe ((Heap.init.run ops).build e) = observe (Heap.init.build e)) := by
  obtain ⟨hf, hn⟩ := init_run_facade ops
  have hne : (Heap.init.run ops).next ≠ facade := (Nat.ne_of_lt hn).symm
  refine ⟨?_, ?_, ?_⟩
  · intro c
    obtain ⟨h1, h2, -, -⟩ := call_facade (Heap.init.run ops) c hf hn
    exact ⟨_, h1, Nat.le_refl _, hne, h2⟩
  · intro a b comb
    obtain ⟨h1, h2, -, -⟩ := combine_facade (Heap.init.run ops) a b comb hf hn
    exact ⟨_, h1, Nat.le_refl _, hne, h2⟩
  · intro e
    exact (build_sim e (Heap.init.run ops) Heap.init ⟨hf, hn⟩ ⟨rfl, by decide⟩).1

/-- C11: `stringify()` returns the accumulated text and changes no field of the selector
nor of any other object; called any number of times in a row it returns the same string
each time, and every later fragment call has the outcome it would have had without. -/
theorem stringify_reads_only (h : Heap) (r : Ref) (n : Nat) :
    stringifyCall (h.objs r) = (h.objs r, (h.objs r).css) ∧
    h.callStringify r = (h, (h.objs r).css) ∧
    (h.stringifyTimes r n).1 = h ∧
    (h.stringifyTimes r n).2 = List.replicate n (h.objs r).css ∧
    ∀ (x : Ref) (c : Call), (h.stringifyTimes r n).1.call x c = h.call x c := by
  refine ⟨rfl, ?_, (stringifyTimes_spec r n h).1, (stringifyTimes_spec r n h).2, ?_⟩
  · exact Prod.ext (callStringify_heap h r) rfl
  · intro x c
    rw [(stringifyTimes_spec r n h).1]

/-- C13, counterexample: on the selector returned by
`combine(element('div'), '+', element('p'))`, the call `class('x')` returns and the
call `id('y')` after it throws the order error. -/
theorem combined_then_order_error :
    (Heap.init.build (.call (.combine .facade (.call .facade ⟨.element, "div"⟩) "+"
      (.call .facade ⟨.element, "p"⟩)) ⟨.«class», "x"⟩)).2 = .ok 3 ∧
    (Heap.init.build (.call (.call (.combine .facade (.call .facade ⟨.element, "div"⟩) "+"
      (.call .facade ⟨.element, "p"⟩)) ⟨.«class», "x"⟩) ⟨.id, "y"⟩)).2 =
      .throw .order := by
  decide

/-- C13, amended: the selector returned by `combine` on the facade carries no ordering
or singleton state of its operands: any single fragment call on it returns, and a chain
of fragment calls on it throws exactly when the chain itself holds a call ranked lower
than an earlier call of the chain or a second element, id or pseudo-element, as for a
chain from the fresh facade. -/
theorem combined_chain_throws_iff (ops : List Op) (a b : Ref) (comb : String)
    (calls : List Call) :
    ∃ r, ((Heap.init.run ops).combine facade a comb b).2 = .ok r ∧
      (∀ c : Call, ∃ r1,
        (((Heap.init.run ops).combine facade a comb b).1.call r c).2 = .ok r1) ∧
      ((∃ e, (((Heap.init.run ops).combine facade a comb b).1.chain r calls).2.2 =
          .throw e) ↔
        ∃ pre c post, calls = pre ++ c :: post ∧ violates pre c) := by
  obtain ⟨hf, hn⟩ := init_run_facade ops
  obtain ⟨h1, -, -, h4⟩ := combine_facade (Heap.init.run ops) a b comb hf hn
  have ht : Tracks [] ((((Heap.init.run ops).combine facade a comb b).1).objs
      (Heap.init.run ops).next) := by
    rw [h4]; exact tracks_combined _
  refine ⟨_, h1, ?_, ?_⟩
  · intro c
    obtain ⟨hok, hthrow⟩ := chain_spec [c] [] _ _ ht
    rcases hres : (((Heap.init.run ops).combine facade a comb b).1.call
        (Heap.init.run ops).next c) with ⟨g, e | r1⟩
    · exfalso
      have hch : ((((Heap.init.run ops).combine facade a comb b).1.chain
          (Heap.init.run ops).next [c]).2.2) = .throw e := by
        simp [Heap.chain, hres]
      obtain ⟨pre, d, post, hcs, -, hv, -⟩ := hthrow e hch
      rcases pre with _ | ⟨p, pre⟩
      · simp [violates] at hv
      · simp at hcs
    · exact ⟨r1, rfl⟩
  · obtain ⟨hok, hthrow⟩ := chain_spec calls [] _ _ ht
    simp only [List.nil_append] at hok hthrow
    constructor
    · rintro ⟨e, he⟩
      obtain ⟨pre, d, post, hcs, -, hv, -⟩ := hthrow e he
      exact ⟨pre, d, post, hcs, hv⟩
    · rintro ⟨pre, d, post, hcs, hv⟩
      rcases hres : (((Heap.init.run ops).combine facade a comb b).1.chain
          (Heap.init.run ops).next calls).2.2 with e | r
      · exact ⟨e, rfl⟩
      · exact absurd hv ((hok r hres).1 pre d post hcs)

/-- C14, counterexample: the selector returned by `element('div')` on the facade has
text 'div'; `id('x')` on it returns the same selector, whose text is then 'div#x'.
Likewise the selector returned by `combine` on the facade, after `class('x')`. -/
theorem produced_selector_mutated :
    (Heap.init.call facade ⟨.element, "div"⟩).2 = .ok 1 ∧
    (Heap.init.call facade ⟨.element, "div"⟩).1.stringify 1 = "div" ∧
    ((Heap.init.call facade ⟨.element, "div"⟩).1.call 1 ⟨.id, "x"⟩).2 = .ok 1 ∧
    ((Heap.init.call facade ⟨.element, "div"⟩).1.call 1 ⟨.id, "x"⟩).1.stringify 1 =
      "div#x" ∧
    (Heap.init.combine facade facade "+" facade).2 = .ok 1 ∧
    (Heap.init.combine facade facade "+" facade).1.stringify 1 = " + " ∧
    ((Heap.init.combine facade facade "+" facade).1.call 1 ⟨.«class», "x"⟩).2 = .ok 1 ∧
    ((Heap.init.combine facade facade "+" facade).1.call 1 ⟨.«class», "x"⟩).1.stringify 1 =
      " + .x" := by
  decide

/-- C14, amended: after any program, every allocated object other than the facade (the
values produced by `combine` or by a fragment call on the facade) is extended in place
by a fragment call that returns: the call hands back that same object, its text has
gained the rendering of the fragment and its rank is the rank of the fragment, no object
is allocated and no other object, the facade included, is written. -/
theorem produced_selector_extended_in_place (ops : List Op) (r r1 : Ref) (c : Call)
    (hr : r ≠ facade) (hrn : r < (Heap.init.run ops).next)
    (hok : ((Heap.init.run ops).call r c).2 = .ok r1) :
    r1 = r ∧
    (((Heap.init.run ops).call r c).1.objs r).css =
      ((Heap.init.run ops).objs r).css ++ c.render ∧
    (((Heap.init.run ops).call r c).1.objs r).sequenceControl = c.kind.rank ∧
    ((Heap.init.run ops).call r c).1.next = (Heap.init.run ops).next ∧
    ∀ x, x ≠ r → ((Heap.init.run ops).call r c).1.objs x = (Heap.init.run ops).objs x := by
  have hc := (init_run_inv ops).2.1 r hr hrn
  obtain ⟨-, ret, hret⟩ := call_ok_returned _ r r1 c hok
  obtain ⟨h1, h2, h3⟩ := call_of_ctrl _ r c ret hc hret
  refine ⟨?_, ?_, ?_, h3, fun x hx => call_of_ctrl_frame _ r c hc x hx⟩
  · rw [h1] at hok
    cases hok
    rfl
  · rw [h2]
    exact (returned_fields c _ ret hret).1
  · rw [h2]
    exact (returned_fields c _ ret hret).2.2.1

/-- Witness for C14 (amended): `id('x')` on the selector returned by `element('div')`. -/
theorem produced_selector_extended_in_place_witness :
    (1 : Ref) = 1 ∧
    (((Heap.init.run [.call facade ⟨.element, "div"⟩]).call 1 ⟨.id, "x"⟩).1.objs 1).css =
      ((Heap.init.run [.call facade ⟨.element, "div"⟩]).objs 1).css ++
        (⟨.id, "x"⟩ : Call).render ∧
    (((Heap.init.run [.call facade ⟨.element, "div"⟩]).call 1
      ⟨.id, "x"⟩).1.objs 1).sequenceControl = (⟨.id, "x"⟩ : Call).kind.rank ∧
    ((Heap.init.run [.call facade ⟨.element, "div"⟩]).call 1 ⟨.id, "x"⟩).1.next =
      (Heap.init.run [.call facade ⟨.element, "div"⟩]).next ∧
    ∀ x, x ≠ 1 →
      ((Heap.init.run [.call facade ⟨.element, "div"⟩]).call 1 ⟨.id, "x"⟩).1.objs x =
        (Heap.init.run [.call facade ⟨.element, "div"⟩]).objs x :=
  produced_selector_extended_in_place [.call facade ⟨.element, "div"⟩] 1 1 ⟨.id, "x"⟩
    (by decide) (by decide) (by decide)

/-- C15: after any program of fragment, `combine` and `stringify` calls, the rank of
every object is at most 6; hence `pseudoElement` never throws the order error: when it
throws, it throws the duplicate error. -/
theorem rank_at_most_six (ops : List Op) (r : Ref) :
    ((Heap.init.run ops).objs r).sequenceControl ≤ 6 ∧
    ∀ (v : String) (e : Err),
      ((Heap.init.run ops).call r ⟨.pseudoElement, v⟩).2 = .throw e → e = .duplicate := by
  have hg := (init_run_inv ops).2.2 r
  refine ⟨hg.1, ?_⟩
  intro v e he
  rw [call_throw_iff] at he
  have h6 : ¬ 6 < ((Heap.init.run ops).objs r).sequenceControl := Nat.not_lt.2 hg.1
  simp only [Call.apply, pseudoElement] at he
  split_ifs at he
  simp_all

/-- C16, counterexample: the facade and a state that differs from it in `ctrl` only;
`class('x')` returns on both, and leaves the first with text '.x' and rank 3 and the
second with text '' and rank 0. -/
theorem ctrl_is_read :
    Sel.agree { cssSelectorBuilder with ctrl := true } cssSelectorBuilder ∧
    (((⟨.«class», "x"⟩ : Call).apply { cssSelectorBuilder with ctrl := true }).1.css = ".x" ∧
     ((⟨.«class», "x"⟩ : Call).apply
        { cssSelectorBuilder with ctrl := true }).1.sequenceControl = 3) ∧
    (((⟨.«class», "x"⟩ : Call).apply cssSelectorBuilder).1.css = "" ∧
     ((⟨.«class», "x"⟩ : Call).apply cssSelectorBuilder).1.sequenceControl = 0) ∧
    ¬ Sel.agree ((⟨.«class», "x"⟩ : Call).apply { cssSelectorBuilder with ctrl := true }).1
        ((⟨.«class», "x"⟩ : Call).apply cssSelectorBuilder).1 := by
  refine ⟨⟨rfl, rfl, rfl, rfl, rfl⟩, by decide, by decide, ?_⟩
  intro h
  exact absurd h.1 (by decide)

/-- C16, amended: `canCreatePseudo` is never read, and `ctrl` is read by `returner` only.
For two states equal in every field other than `ctrl` and `canCreatePseudo` (and operands
of `combine` equal in that sense), a fragment call throws the same error in both or
returns in both, `combine` returns in both, and the selectors handed back are equal in
every other field, the text included; `stringify` returns the same string and writes
nothing.  The two receivers are left equal in every other field when the call throws or
when the two states have the same `ctrl`. -/
theorem flags_observational (s t a a1 b b1 : Sel) (comb : String) (c : Call)
    (hst : s.agree t) (ha : a.agree a1) (hb : b.agree b1) :
    (∀ e, (c.apply s).2 = .throw e ↔ (c.apply t).2 = .throw e) ∧
    ((∃ ret, (c.apply s).2 = .ok ret) ↔ ∃ ret, (c.apply t).2 = .ok ret) ∧
    ((∃ ret, (c.apply s).2 = .ok ret) → (c.returned s).agree (c.returned t)) ∧
    ((s.ctrl = t.ctrl ∨ ∃ e, (c.apply s).2 = .throw e) →
      (c.apply s).1.agree (c.apply t).1) ∧
    ((combine s a comb b).2.object (combine s a comb b).1).agree
      ((combine t a1 comb b1).2.object (combine t a1 comb b1).1) ∧
    (s.ctrl = t.ctrl → (combine s a comb b).1.agree (combine t a1 comb b1).1) ∧
    (stringifyCall s).2 = (stringifyCall t).2 ∧
    (stringifyCall s).1 = s ∧ (stringifyCall t).1 = t := by
  have hthrow := fun e => agree_throw c s t e hst
  refine ⟨hthrow, ?_, agree_returned c s t hst, ?_, ?_, ?_, hst.1, rfl, rfl⟩
  · constructor
    · rintro ⟨ret, hret⟩
      rcases ok_or_throw c t with h | ⟨e, he⟩
      · exact h
      · rw [← hthrow e, hret] at he
        cases he
    · rintro ⟨ret, hret⟩
      rcases ok_or_throw c s with h | ⟨e, he⟩
      · exact h
      · rw [hthrow e, hret] at he
        cases he
  · rintro (hc | ⟨e, he⟩)
    · exact agree_receiver c s t hst hc
    · rw [apply_throw_state c s e he, apply_throw_state c t e ((hthrow e).1 he)]
      exact hst
  · obtain ⟨h1, h2, h3, h4, h5⟩ := hst
    simp only [combine, returner, stringify, Ret.object, Sel.agree, ha.1, hb.1]
    split_ifs <;> simp_all
  · intro hc
    obtain ⟨h1, h2, h3, h4, h5⟩ := hst
    simp only [combine, returner, stringify, Sel.agree, ha.1, hb.1, hc]
    split_ifs <;> simp_all

/-- Witness for C16 (amended): the selector `element('a')` and the same fields with
`ctrl` and `canCreatePseudo` cleared, under `id('b')`. -/
theorem flags_observational_witness :
    Sel.agree
      { css := "a", ctrl := true, elem := true, ident := false, pseudoEl := false,
        canCreatePseudo := true, sequenceControl := 1 }
      { css := "a", ctrl := false, elem := true, ident := false, pseudoEl := false,
        canCreatePseudo := false, sequenceControl := 1 } ∧
    Sel.agree
      ((⟨.id, "b"⟩ : Call).returned
        { css := "a", ctrl := true, elem := true, ident := false, pseudoEl := false,
          canCreatePseudo := true, sequenceControl := 1 })
      ((⟨.id, "b"⟩ : Call).returned
        { css := "a", ctrl := false, elem := true, ident := false, pseudoEl := false,
          canCreatePseudo := false, sequenceControl := 1 }) :=
  ⟨⟨rfl, rfl, rfl, rfl, rfl⟩,
   (flags_observational _ _ cssSelectorBuilder cssSelectorBuilder cssSelectorBuilder
      cssSelectorBuilder "+" ⟨.id, "b"⟩ ⟨rfl, rfl, rfl, rfl, rfl⟩ ⟨rfl, rfl, rfl, rfl, rfl⟩
      ⟨rfl, rfl, rfl, rfl, rfl⟩).2.2.1 ⟨_, rfl⟩⟩

/-- C17: when a call breaks both the singleton rule and the ordering rule the duplicate
test wins: `element` on a selector with the element flag set and a rank other than 0
throws the duplicate error, and so does `id` on a selector with the id flag set and a
rank above 1; the receiver is left as it was. -/
theorem duplicate_wins (s : Sel) (k : Kind) (v : String)
    (hboth : (k = .element ∧ s.elem = true ∧ s.sequenceControl ≠ 0) ∨
      (k = .id ∧ s.ident = true ∧ 1 < s.sequenceControl)) :
    (Call.mk k v).apply s = (s, .throw .duplicate) ∧
    (Call.mk k v).apply s ≠ (s, .throw .order) := by
  rcases hboth with ⟨hk, hf, -⟩ | ⟨hk, hf, -⟩ <;> subst hk <;>
    simp [Call.apply, element, id, hf]

/-- Witness for C17: `element('c')` on the selector `element('a').id('b')`. -/
theorem duplicate_wins_witness :
    (Call.mk .element "c").apply
        ((Heap.init.chain facade [⟨.element, "a"⟩, ⟨.id, "b"⟩]).1.objs 1) =
      ((Heap.init.chain facade [⟨.element, "a"⟩, ⟨.id, "b"⟩]).1.objs 1,
        .throw .duplicate) ∧
    (Call.mk .element "c").apply
        ((Heap.init.chain facade [⟨.element, "a"⟩, ⟨.id, "b"⟩]).1.objs 1) ≠
      ((Heap.init.chain facade [⟨.element, "a"⟩, ⟨.id, "b"⟩]).1.objs 1, .throw .order) :=
  duplicate_wins ((Heap.init.chain facade [⟨.element, "a"⟩, ⟨.id, "b"⟩]).1.objs 1)
    .element "c" (Or.inl ⟨rfl, by decide, by decide⟩)

/-- C18: after any program, a set pseudo-element flag comes with rank 6; and once
`pseudoElement` has returned a selector, then after any further program every fragment
call on that selector throws and writes nothing: `pseudoElement` throws the duplicate
error, `class`, `attr` and `pseudoClass` the order error, `element` and `id` one of the
two. -/
theorem pseudo_element_terminal (ops : List Op) :
    (∀ r, ((Heap.init.run ops).objs r).pseudoEl = true →
      ((Heap.init.run ops).objs r).sequenceControl = 6) ∧
    (∀ (x r : Ref) (v : String) (ops2 : List Op) (c : Call),
      x < (Heap.init.run ops).next →
      ((Heap.init.run ops).call x ⟨.pseudoElement, v⟩).2 = .ok r →
      ∃ e,
        ((((Heap.init.run ops).call x ⟨.pseudoElement, v⟩).1.run ops2).call r c) =
          ((((Heap.init.run ops).call x ⟨.pseudoElement, v⟩).1.run ops2), .throw e) ∧
        (c.kind = .pseudoElement → e = .duplicate) ∧
        (c.kind = .«class» ∨ c.kind = .attr ∨ c.kind = .pseudoClass → e = .order)) := by
  have hI := init_run_inv ops
  refine ⟨fun r => (hI.2.2 r).2, ?_⟩
  intro x r v ops2 c hx hok
  obtain ⟨hI1, hr0, hrn, hp⟩ := pseudoElement_returned _ x r v hI hx hok
  obtain ⟨hI2, -, hpers⟩ := run_inv ops2 _ hI1
  have hp2 := hpers r hr0 hrn hp
  have hs2 := (hI2.2.2 r).2 hp2
  obtain ⟨e, he, hk1, hk2⟩ := terminal_throws c _ hp2 hs2
  have hthrow : ((((Heap.init.run ops).call x ⟨.pseudoElement, v⟩).1.run ops2).call r c).2 =
      .throw e := by
    rw [call_throw_iff, he]
  exact ⟨e, Prod.ext (call_throw_heap _ r c e hthrow) hthrow, hk1, hk2⟩

/-- C19: `combine(a, c, b)` called on an in-progress selector `s` (`ctrl` set) returns
`s` itself, allocates nothing and writes to `s` only: the text of `s` becomes its
previous text followed by `a.stringify() + ' ' + c + ' ' + b.stringify()`, and its rank
and its three singleton flags are as before. -/
theorem combine_in_progress (h : Heap) (r a b : Ref) (comb : String)
    (hc : (h.objs r).ctrl = true) :
    (h.combine r a comb b).2 = .ok r ∧
    (h.combine r a comb b).1.stringify r =
      h.stringify r ++ (h.stringify a ++ " " ++ comb ++ " " ++ h.stringify b) ∧
    ((h.combine r a comb b).1.objs r).sequenceControl = (h.objs r).sequenceControl ∧
    ((h.combine r a comb b).1.objs r).elem = (h.objs r).elem ∧
    ((h.combine r a comb b).1.objs r).ident = (h.objs r).ident ∧
    ((h.combine r a comb b).1.objs r).pseudoEl = (h.objs r).pseudoEl ∧
    (h.combine r a comb b).1.next = h.next ∧
    ∀ x, x ≠ r → (h.combine r a comb b).1.objs x = h.objs x := by
  simp only [Heap.combine, combine_ctrl _ _ _ comb hc, Heap.commit, Heap.stringify,
    stringify, Function.update_same, true_and]
  intro x hx
  exact Function.update_noteq hx _ _

/-- Witness for C19: on the selector `s` returned by `element('div')`, the call
`s.combine(s, '+', s)`. -/
theorem combine_in_progress_witness :
    ((Heap.init.call facade ⟨.element, "div"⟩).1.combine 1 1 "+" 1).2 = .ok 1 ∧
    ((Heap.init.call facade ⟨.element, "div"⟩).1.combine 1 1 "+" 1).1.stringify 1 =
      (Heap.init.call facade ⟨.element, "div"⟩).1.stringify 1 ++
        ((Heap.init.call facade ⟨.element, "div"⟩).1.stringify 1 ++ " " ++ "+" ++ " " ++
          (Heap.init.call facade ⟨.element, "div"⟩).1.stringify 1) ∧
    (((Heap.init.call facade ⟨.element, "div"⟩).1.combine 1 1 "+" 1).1.objs 1).sequenceControl =
      ((Heap.init.call facade ⟨.element, "div"⟩).1.objs 1).sequenceControl ∧
    (((Heap.init.call facade ⟨.element, "div"⟩).1.combine 1 1 "+" 1).1.objs 1).elem =
      ((Heap.init.call facade ⟨.element, "div"⟩).1.objs 1).elem ∧
    (((Heap.init.call facade ⟨.element, "div"⟩).1.combine 1 1 "+" 1).1.objs 1).ident =
      ((Heap.init.call facade ⟨.element, "div"⟩).1.objs 1).ident ∧
    (((Heap.init.call facade ⟨.element, "div"⟩).1.combine 1 1 "+" 1).1.objs 1).pseudoEl =
      ((Heap.init.call facade ⟨.element, "div"⟩).1.objs 1).pseudoEl ∧
    ((Heap.init.call facade ⟨.element, "div"⟩).1.combine 1 1 "+" 1).1.next =
      (Heap.init.call facade ⟨.element, "div"⟩).1.next ∧
    ∀ x, x ≠ 1 →
      ((Heap.init.call facade ⟨.element, "div"⟩).1.combine 1 1 "+" 1).1.objs x =
        (Heap.init.call facade ⟨.element, "div"⟩).1.objs x :=
  combine_in_progress (Heap.init.call facade ⟨.element, "div"⟩).1 1 1 1 "+" (by decide)

end CssSelector

/-- Below `2 ^ 53` no bit is cut off. -/
theorem excessBits_of_lt (fuel m : Nat) (h : m < 2 ^ 53) : excessBits fuel m = 0 := by
  cases fuel with
  | zero => rfl
  | succ n => exact if_pos h

/-- With enough halvings allowed, what is kept of `m` fits in 53 bits. -/
theorem excessBits_fits (fuel : Nat) : ∀ m : Nat, m < 2 ^ fuel * 2 ^ 53 →
    m / 2 ^ excessBits fuel m < 2 ^ 53 := by
  induction fuel with
  | zero =>
    intro m hm
    simpa [excessBits] using hm
  | succ n ih =>
    intro m hm
    by_cases hlt : m < 2 ^ 53
    · rw [excessBits_of_lt _ _ hlt]
      simpa using hlt
    · have hstep : excessBits (n + 1) m = excessBits n (m / 2) + 1 := if_neg hlt
      have hhalf : m / 2 < 2 ^ n * 2 ^ 53 := by
        rw [Nat.div_lt_iff_lt_mul (by decide)]
        calc m < 2 ^ (n + 1) * 2 ^ 53 := hm
          _ = 2 ^ n * 2 ^ 53 * 2 := by ring
      rw [hstep, Nat.pow_succ, Nat.mul_comm, ← Nat.div_div_eq_div_mul]
      exact ih (m / 2) hhalf

/-- The significand that `roundMagnitude` keeps before rounding has at most 53 bits. -/
theorem roundMagnitude_significand (m : Nat) : m / 2 ^ excessBits m m < 2 ^ 53 := by
  apply excessBits_fits
  calc m < 2 ^ m := Nat.lt_two_pow m
    _ ≤ 2 ^ m * 2 ^ 53 := Nat.le_mul_of_pos_right _ (by positivity)

/-- The rounded magnitude is within half a unit in the last place of the exact one. -/
theorem roundMagnitude_near (m : Nat) :
    2 * (roundMagnitude m - m) ≤ 2 ^ excessBits m m ∧
    2 * (m - roundMagnitude m) ≤ 2 ^ excessBits m m := by
  have hk : 0 < 2 ^ excessBits m m := by positivity
  have hdm := Nat.div_add_mod m (2 ^ excessBits m m)
  have hmod := Nat.mod_lt m hk
  simp only [roundMagnitude]
  generalize 2 ^ excessBits m m = k at hk hdm hmod ⊢
  generalize hq : m / k = q at hdm ⊢
  generalize hr : m % k = rem at hdm hmod ⊢
  have hmul : (q + 1) * k = k * q + k := by ring
  have hmul2 : q * k = k * q := Nat.mul_comm q k
  split_ifs with hup
  · rw [hmul]
    rcases hup with hup | ⟨hup, -⟩ <;> omega
  · rw [hmul2]
    simp only [not_or] at hup
    omega

/-- An integer of magnitude at most `2 ^ 53` is its own nearest double. -/
theorem roundToDouble_exact (p : Int) (h : p.natAbs ≤ 2 ^ 53) : roundToDouble p = .int p := by
  rcases Nat.lt_or_eq_of_le h with hlt | heq
  · have h53 : p.natAbs >>> 53 = 0 := by
      rw [Nat.shiftRight_eq_div_pow]
      exact Nat.div_eq_of_lt hlt
    have hs : p.natAbs >>> 1024 = 0 := by
      rw [show 1024 = 53 + 971 from rfl, Nat.shiftRight_add, h53, Nat.zero_shiftRight]
    have hr : roundMagnitude p.natAbs = p.natAbs := by
      simp [roundMagnitude, excessBits_of_lt _ _ hlt, Nat.mod_one]
    unfold roundToDouble
    simp only [hr, hs, ne_eq, not_true_eq_false, if_false]
    congr 1
    split_ifs with hneg
    · omega
    · omega
  · rcases Int.natAbs_eq p with hp | hp <;> rw [heq] at hp <;> subst hp <;> rfl

/-- C12, counterexample: for the integers `width = height = 94906267` the product is
`9007199515875289`, above `2 ^ 53`, and `getArea()` returns the nearest double,
`9007199515875288`. -/
theorem Rectangle.getArea_rounds :
    (Rectangle.mk (JSNumber.int 94906267) (JSNumber.int 94906267)).getArea =
      JSNumber.int 9007199515875288 ∧
    (94906267 : Int) * 94906267 = 9007199515875289 := by
  decide

/-- C12, amended: for integers `width` and `height` whose product has magnitude at most
`2 ^ 53`, the object built by `Rectangle(width, height)` has these two values as its
fields `width` and `height`, and `getArea()` returns `width * height`. -/
theorem Rectangle.getArea_exact (width height : Int)
    (hsafe : (width * height).natAbs ≤ 2 ^ 53) :
    (Rectangle.mk (JSNumber.int width) (JSNumber.int height)).width = .int width ∧
    (Rectangle.mk (JSNumber.int width) (JSNumber.int height)).height = .int height ∧
    (Rectangle.mk (JSNumber.int width) (JSNumber.int height)).getArea =
      .int (width * height) :=
  ⟨rfl, rfl, roundToDouble_exact _ hsafe⟩

/-- Witness for C12 (amended): the example `new Rectangle(10, 20)` of the source's doc
comment, with area 200. -/
theorem Rectangle.getArea_exact_witness :
    (Rectangle.mk (JSNumber.int 10) (JSNumber.int 20)).width = .int 10 ∧
    (Rectangle.mk (JSNumber.int 10) (JSNumber.int 20)).height = .int 20 ∧
    (Rectangle.mk (JSNumber.int 10) (JSNumber.int 20)).getArea = .int (10 * 20) :=
  Rectangle.getArea_exact 10 20 (by decide)
